import Mathlib

/-!
Verification of the spatial aggregate ("Map" / GridIndex) of the
google-timeline-fog-of-war repository, shallowly embedded in Lean 4.

Modelling conventions:
* JS numbers used as coordinates are modelled as rationals (ℚ).  The one
  place where NaN semantics matter (the LocationPoint constructor check,
  claim C4) uses an explicit JSNum type with JS comparison semantics.
* JS object identity (reference equality) is modelled by giving every
  TimelinePoint / TimelinePath a numeric identity field (pid / pathid);
  two structurally equal Lean values model the same JS heap object.
  A JS `Set` is modelled as a Lean `List` kept duplicate-free by the
  `Set.add`-style insert (`addUnique`); insertion order is preserved.
* `Date` values are modelled as epoch integers; `toISOString` followed by
  `new Date(...)` round-trips and is modelled as the identity.
* Fallible code (constructor throws, property access on `undefined`)
  is modelled with `Option`.
-/

namespace Fog

/-- Grid-dimension constant `Map.LAT_STEP_COUNTS = 18` from Map.ts. -/
def latStepCounts : ℕ := 18

/-- Grid-dimension constant `Map.LON_STEP_COUNTS = 36` from Map.ts. -/
def lonStepCounts : ℕ := 36

/-- Total number of grid cells, `LAT_STEP_COUNTS * LON_STEP_COUNTS = 648`. -/
def gridSize : ℕ := latStepCounts * lonStepCounts

/-- Modelled from the spec: the coordinate-bound constants imported from
`./consts` (`MIN_LATITUDE` etc.); the consts file itself is not in the
provided sources, but the spec fixes them as lat ∈ [-90, 90] and
lon ∈ [-180, 180], matching all tests. -/
def MIN_LATITUDE : ℚ := -90

/-- Modelled from the spec: see MIN_LATITUDE. -/
def MAX_LATITUDE : ℚ := 90

/-- Modelled from the spec: see MIN_LATITUDE. -/
def MIN_LONGITUDE : ℚ := -180

/-- Modelled from the spec: see MIN_LATITUDE. -/
def MAX_LONGITUDE : ℚ := 180

/-- A JS number as it matters for the `LocationPoint` constructor check:
either NaN or an ordinary (rational) number. -/
inductive JSNum where
  | nan : JSNum
  | num : ℚ → JSNum
deriving DecidableEq

/-- JS `<` comparison: any comparison involving NaN is false. -/
def JSNum.ltB : JSNum → JSNum → Bool
  | JSNum.num a, JSNum.num b => decide (a < b)
  | _, _ => false

/-- JS `>` comparison: any comparison involving NaN is false. -/
def JSNum.gtB : JSNum → JSNum → Bool
  | JSNum.num a, JSNum.num b => decide (a > b)
  | _, _ => false

/-- The `LocationPoint` constructor from map/value-objects.ts: it throws iff
`lat < MIN_LATITUDE || lat > MAX_LATITUDE` or
`lon < MIN_LONGITUDE || lon > MAX_LONGITUDE`.  `ctorOk lat lon = true`
models successful construction (no throw). -/
def LocationPoint.ctorOk (lat lon : JSNum) : Bool :=
  !(lat.ltB (JSNum.num MIN_LATITUDE) || lat.gtB (JSNum.num MAX_LATITUDE)
    || lon.ltB (JSNum.num MIN_LONGITUDE) || lon.gtB (JSNum.num MAX_LONGITUDE))

/-- TimelinePoint from TimelinePoint.ts: a validated LocationPoint plus a
timestamp.  `pid` is the modelled object identity (see file header). -/
structure TimelinePoint where
  pid : ℕ
  lat : ℚ
  lon : ℚ
  timestamp : ℤ
deriving DecidableEq

/-- TimelinePath from TimelinePath.ts: references to two TimelinePoints.
`pathid` is the modelled object identity.  The precomputed haversine
`length` field is real-valued and not referenced by any verified claim;
it is omitted from the embedding. -/
structure TimelinePath where
  pathid : ℕ
  a : TimelinePoint
  b : TimelinePoint
deriving DecidableEq

/-- JS `Set.add`: append iff not already a member (insertion order kept). -/
def addUnique {α : Type} [DecidableEq α] (l : List α) (x : α) : List α :=
  if x ∈ l then l else l ++ [x]

/-- TimelineGroup from TimelineGroup.ts: a Set of point references plus a
Set of path references, modelled as duplicate-free lists. -/
structure TimelineGroup where
  points : List TimelinePoint
  paths : List TimelinePath
deriving DecidableEq

/-- TimelineGroup.createEmpty. -/
def TimelineGroup.createEmpty : TimelineGroup := ⟨[], []⟩

/-- TimelineGroup.addPoints: `for p of points: this.points.add(p)`. -/
def TimelineGroup.addPoints (g : TimelineGroup) (ps : List TimelinePoint) : TimelineGroup :=
  ⟨ps.foldl addUnique g.points, g.paths⟩

/-- TimelineGroup.addPaths: `for p of paths: this.paths.add(p)`. -/
def TimelineGroup.addPaths (g : TimelineGroup) (ps : List TimelinePath) : TimelineGroup :=
  ⟨g.points, ps.foldl addUnique g.paths⟩

/-- TimelineGroup.removePoints: `for p of points: this.points.delete(p)`.
`Set.delete` is modelled by `List.erase` (the set is duplicate-free). -/
def TimelineGroup.removePoints (g : TimelineGroup) (ps : List TimelinePoint) : TimelineGroup :=
  ⟨ps.foldl (fun l p => l.erase p) g.points, g.paths⟩

/-- TimelineGroup.removePaths. -/
def TimelineGroup.removePaths (g : TimelineGroup) (ps : List TimelinePath) : TimelineGroup :=
  ⟨g.points, ps.foldl (fun l p => l.erase p) g.paths⟩

/-- TimelineGroup.getStatistics: the two set sizes `(totalPoints, totalPaths)`.
The `Statistics` value object's negative-count guard is unreachable for
set sizes and is dropped (counts are ℕ). -/
def TimelineGroup.getStatistics (g : TimelineGroup) : ℕ × ℕ :=
  (g.points.length, g.paths.length)

/-- The TimelineGroup/TimelineData constructor: start empty, `Set.add`
each given point and path in order (deduplicating). -/
def mkGroup (ps : List TimelinePoint) (pas : List TimelinePath) : TimelineGroup :=
  (TimelineGroup.createEmpty.addPoints ps).addPaths pas

/-- TimelineFile from TimelineFile.ts.  The random id generation is not
modelled; files arrive with their id. -/
structure TimelineFile where
  id : String
  name : String
  data : TimelineGroup
deriving DecidableEq

/-- The Map aggregate root from Map.ts.  The JS fixed array of
`gridSize` MapSegment cells is modelled as a total function from cell
index to cell contents; indices ≥ gridSize are never accessed by the
operations (claim C9). -/
structure Map where
  grid : ℕ → TimelineGroup
  files : List TimelineFile

/-- Map.createEmpty: all cells empty, no files. -/
def Map.createEmpty : Map := ⟨fun _ => TimelineGroup.createEmpty, []⟩

/-- Map.getSegmentIndex (Map.ts lines 369-376): floor-based raw indices,
clamped into `[0, LAT_STEP_COUNTS-1]` × `[0, LON_STEP_COUNTS-1]`, then
flattened as `latIdx * LON_STEP_COUNTS + lonIdx`. -/
def getSegmentIndex (lat lon : ℚ) : ℕ :=
  ((max 0 (min (18 - 1) ⌊(lat + 90) / 180 * 18⌋)) * 36
    + max 0 (min (36 - 1) ⌊(lon + 180) / 360 * 36⌋)).toNat

/-- Cell index of a point's coordinates. -/
def cellOfPt (p : TimelinePoint) : ℕ := getSegmentIndex p.lat p.lon

/-- Map.addFile point-indexing step:
`grid[getSegmentIndex(point.lat, point.lon)].addPoints(point)`. -/
def indexPoint (g : ℕ → TimelineGroup) (p : TimelinePoint) : ℕ → TimelineGroup :=
  Function.update g (cellOfPt p) ((g (cellOfPt p)).addPoints [p])

/-- Adding one path reference to one grid cell. -/
def addPathToCell (g : ℕ → TimelineGroup) (c : ℕ) (pa : TimelinePath) : ℕ → TimelineGroup :=
  Function.update g c ((g c).addPaths [pa])

/-- Map.addFile path-indexing step: add the path to the start point's cell,
and to the end point's cell as well when it differs. -/
def indexPath (g : ℕ → TimelineGroup) (pa : TimelinePath) : ℕ → TimelineGroup :=
  if cellOfPt pa.a = cellOfPt pa.b then addPathToCell g (cellOfPt pa.a) pa
  else addPathToCell (addPathToCell g (cellOfPt pa.a) pa) (cellOfPt pa.b) pa

/-- Index all of a group's points, then all its paths, into the grid
(the shared body of Map.addFile and the fromJson reindex path). -/
def indexGroup (g : ℕ → TimelineGroup) (d : TimelineGroup) : ℕ → TimelineGroup :=
  d.paths.foldl indexPath (d.points.foldl indexPoint g)

/-- Map.addFile (Map.ts lines 291-310): push the file, then index its
points and paths into the grid. -/
def Map.addFile (m : Map) (f : TimelineFile) : Map :=
  ⟨indexGroup m.grid f.data, m.files ++ [f]⟩

/-- `files.findIndex(f => f.id === id)` followed by `splice`: returns the
first file whose id matches together with the remaining list. -/
def removeFirstById : List TimelineFile → String → Option (TimelineFile × List TimelineFile)
  | [], _ => none
  | f :: rest, i =>
    if f.id = i then some (f, rest)
    else (removeFirstById rest i).map fun p => (p.1, f :: p.2)

/-- Map.removeFile point-removal step. -/
def unindexPoint (g : ℕ → TimelineGroup) (p : TimelinePoint) : ℕ → TimelineGroup :=
  Function.update g (cellOfPt p) ((g (cellOfPt p)).removePoints [p])

/-- Removing one path reference from one grid cell. -/
def removePathFromCell (g : ℕ → TimelineGroup) (c : ℕ) (pa : TimelinePath) :
    ℕ → TimelineGroup :=
  Function.update g c ((g c).removePaths [pa])

/-- Map.removeFile path-removal step. -/
def unindexPath (g : ℕ → TimelineGroup) (pa : TimelinePath) : ℕ → TimelineGroup :=
  if cellOfPt pa.a = cellOfPt pa.b then removePathFromCell g (cellOfPt pa.a) pa
  else removePathFromCell (removePathFromCell g (cellOfPt pa.a) pa) (cellOfPt pa.b) pa

/-- Map.removeFile (Map.ts lines 316-341): look up the stored file by id;
if absent, no-op; otherwise drop it from the file list and remove its
points and then its paths from the cells computed from their coordinates.
(The JS guards skipping `undefined` points/paths have no counterpart in
the typed model.) -/
def Map.removeFile (m : Map) (f : TimelineFile) : Map :=
  match removeFirstById m.files f.id with
  | none => m
  | some (fr, rest) =>
    ⟨fr.data.paths.foldl unindexPath (fr.data.points.foldl unindexPoint m.grid), rest⟩

/-- Map.getStatistics (Map.ts lines 346-357): sum each stored file's own
statistics. -/
def Map.getStatistics (m : Map) : ℕ × ℕ :=
  m.files.foldl
    (fun acc f => (acc.1 + f.data.points.length, acc.2 + f.data.paths.length)) (0, 0)

/-- Map.getAllFiles: a snapshot copy of the file list. -/
def Map.getAllFiles (m : Map) : List TimelineFile := m.files

/-- MapBounds from value-objects.ts: two corner points (lat/lon pairs;
construction of the corners is validated elsewhere). -/
structure MapBounds where
  aLat : ℚ
  aLon : ℚ
  bLat : ℚ
  bLon : ℚ
deriving DecidableEq

/-- The point filter inside Map.queryViewport:
`p.lat >= minLat && p.lat <= maxLat && p.lon >= minLon && p.lon <= maxLon`. -/
def inRect (minLat maxLat minLon maxLon : ℚ) (p : TimelinePoint) : Bool :=
  decide (minLat ≤ p.lat ∧ p.lat ≤ maxLat ∧ minLon ≤ p.lon ∧ p.lon ≤ maxLon)

/-- The grid cells visited by Map.queryViewport's double loop
`for lat in [startLatIdx, endLatIdx), lon in [startLonIdx, endLonIdx)`,
flattened as `lat * LON_STEP_COUNTS + lon`, in loop order. -/
def scannedCells (startLa endLa startLo endLo : ℤ) : List ℕ :=
  let rows : List ℕ :=
    (List.range 18).filter fun la => decide (startLa ≤ (la : ℤ) ∧ (la : ℤ) < endLa)
  let cols : List ℕ :=
    (List.range 36).filter fun lo => decide (startLo ≤ (lo : ℤ) ∧ (lo : ℤ) < endLo)
  rows.flatMap fun la => cols.map fun lo => la * 36 + lo

/-- The scanned cell range of Map.queryViewport for given bounds:
floor/ceil of the rectangle corners, clamped to the grid
(`startLatIdx = max(0, minLatIdx)`, `endLatIdx = min(LAT_STEP_COUNTS,
maxLatIdx)` and likewise for longitude). -/
def qvCells (b : MapBounds) : List ℕ :=
  scannedCells (max 0 ⌊(min b.aLat b.bLat + 90) / 180 * 18⌋)
    (min 18 ⌈(max b.aLat b.bLat + 90) / 180 * 18⌉)
    (max 0 ⌊(min b.aLon b.bLon + 180) / 360 * 36⌋)
    (min 36 ⌈(max b.aLon b.bLon + 180) / 360 * 36⌉)

/-- The point filter of Map.queryViewport against the bounds rectangle. -/
def qvPointIn (b : MapBounds) (p : TimelinePoint) : Bool :=
  inRect (min b.aLat b.bLat) (max b.aLat b.bLat) (min b.aLon b.bLon)
    (max b.aLon b.bLon) p

/-- Map.queryViewport (Map.ts lines 239-285): compute the rectangle from the
two corners, the floor/ceil covering cell-index range clamped to the grid,
scan those cells, and collect into dedup sets the points inside the
rectangle and the paths with at least one endpoint inside. -/
def Map.queryViewport (m : Map) (bounds : MapBounds) :
    Finset TimelinePoint × Finset TimelinePath :=
  ((qvCells bounds).foldl
      (fun s c => s ∪ ((m.grid c).points.filter (qvPointIn bounds)).toFinset)
      ∅,
   (qvCells bounds).foldl
      (fun s c => s ∪ ((m.grid c).paths.filter
        (fun pa => qvPointIn bounds pa.a || qvPointIn bounds pa.b)).toFinset)
      ∅)

/-- Coordinate-and-time observation of a point (what serialization keeps
and what rendering consumes; the identity field is erased). -/
def stripPt (p : TimelinePoint) : ℚ × ℚ × ℤ := (p.lat, p.lon, p.timestamp)

/-- Coordinate observation of a path: both endpoint observations. -/
def stripPath (pa : TimelinePath) : (ℚ × ℚ × ℤ) × (ℚ × ℚ × ℤ) :=
  (stripPt pa.a, stripPt pa.b)

/-- Viewport-query point result up to object identity. -/
def Map.obsQueryPoints (m : Map) (b : MapBounds) : Finset (ℚ × ℚ × ℤ) :=
  (m.queryViewport b).1.image stripPt

/-- Viewport-query path result up to object identity. -/
def Map.obsQueryPaths (m : Map) (b : MapBounds) :
    Finset ((ℚ × ℚ × ℤ) × (ℚ × ℚ × ℤ)) :=
  (m.queryViewport b).2.image stripPath

/-- Ids of the stored files, in order. -/
def Map.fileIds (m : Map) : List String := m.files.map TimelineFile.id

/-! ## Serialization protocol (Map.toJson / Map.fromJson) -/

/-- Serialized point `{lat, lon, timestamp}`. -/
structure SPoint where
  lat : ℚ
  lon : ℚ
  timestamp : ℤ
deriving DecidableEq

/-- Serialized path `{a, b}`: indices into the serialized point array. -/
structure SPath where
  a : ℕ
  b : ℕ
deriving DecidableEq

/-- Serialized grid cell `{index, pointIndices, pathIndices}`. -/
structure SSegment where
  index : ℕ
  pointIndices : List ℕ
  pathIndices : List ℕ
deriving DecidableEq

/-- Serialized file `{id, name, pointIndices, pathIndices}`. -/
structure SFile where
  id : String
  name : String
  pointIndices : List ℕ
  pathIndices : List ℕ
deriving DecidableEq

/-- The full serialized form produced by Map.toJson. -/
structure SerializedMap where
  latStepCounts : ℕ
  lonStepCounts : ℕ
  points : List SPoint
  paths : List SPath
  segments : List SSegment
  files : List SFile
deriving DecidableEq

/-- Position of the first occurrence of `x` in `l` (the JS
`Map<object, index>` lookup, where indices are assigned first-seen). -/
def idxOf {α : Type} [DecidableEq α] : List α → α → Option ℕ
  | [], _ => none
  | y :: l, x => if y = x then some 0 else (idxOf l x).map (· + 1)

/-- First toJson pass: collect all distinct points from the grid cells in
cell order (insertion order within a cell), assigning first-seen indices. -/
def collectPoints (m : Map) : List TimelinePoint :=
  (List.range gridSize).foldl (fun acc c => (m.grid c).points.foldl addUnique acc) []

/-- Second toJson pass, one path: if the path is new, defensively index
both endpoints (first a then b) and then record the path. -/
def collectStep (st : List TimelinePoint × List TimelinePath) (pa : TimelinePath) :
    List TimelinePoint × List TimelinePath :=
  if pa ∈ st.2 then st
  else (addUnique (addUnique st.1 pa.a) pa.b, st.2 ++ [pa])

/-- Both toJson passes: all distinct points, then all distinct paths from
the grid cells, in first-seen order. -/
def collectAll (m : Map) : List TimelinePoint × List TimelinePath :=
  (List.range gridSize).foldl (fun st c => (m.grid c).paths.foldl collectStep st)
    (collectPoints m, [])

/-- A point as serialized: `{lat, lon, timestamp: ISO}` (identity erased). -/
def serializePoint (p : TimelinePoint) : SPoint := ⟨p.lat, p.lon, p.timestamp⟩

/-- Map.toJson (Map.ts lines 132-233).  Index lookups are made against the
final point/path tables; this agrees with the source, whose tables are
append-only so a key's index never changes after assignment.  A segment is
emitted only when non-empty; `filterMap idxOf` is the source's
`filter(p => table.has(p)).map(p => table.get(p))`. -/
def Map.toJson (m : Map) : SerializedMap :=
  let pts := (collectAll m).1
  let pas := (collectAll m).2
  ⟨latStepCounts, lonStepCounts,
   pts.map serializePoint,
   pas.filterMap fun pa =>
     match idxOf pts pa.a, idxOf pts pa.b with
     | some i, some j => some ⟨i, j⟩
     | _, _ => none,
   (List.range gridSize).filterMap fun c =>
     if (m.grid c).points.length > 0 ∨ (m.grid c).paths.length > 0 then
       some ⟨c, (m.grid c).points.filterMap (idxOf pts),
         (m.grid c).paths.filterMap (idxOf pas)⟩
     else none,
   m.files.map fun f =>
     ⟨f.id, f.name, f.data.points.filterMap (idxOf pts),
      f.data.paths.filterMap (idxOf pas)⟩⟩

/-- Deserializing one point: `new TimelinePoint(p.lat, p.lon, new Date(...))`
throws (fails) when the coordinates are out of bounds; the fresh object's
identity is its position in the serialized array. -/
def deserializePoint (i : ℕ) (sp : SPoint) : Option TimelinePoint :=
  if -90 ≤ sp.lat ∧ sp.lat ≤ 90 ∧ -180 ≤ sp.lon ∧ sp.lon ≤ 180 then
    some ⟨i, sp.lat, sp.lon, sp.timestamp⟩
  else none

/-- Deserializing the path array: resolve `a`/`b` indices into point
references, skipping (not failing on) a path whose index is missing.
Fresh path objects are identified by their position among the kept paths. -/
def deserializePaths (points : List TimelinePoint) (sps : List SPath) : List TimelinePath :=
  sps.foldl
    (fun acc sp =>
      match points.get? sp.a, points.get? sp.b with
      | some a, some b => acc ++ [⟨acc.length, a, b⟩]
      | _, _ => acc)
    []

/-- Map.fromJson (Map.ts lines 43-127), with the fast/slow branch made a
parameter (the source computes it as `gridDimensionsMatch`): deserialize
points (validated), paths (invalid ones skipped), files; then either
restore cell membership from the serialized segments (fast) or rebuild it
by replaying addFile-style indexing over every file (slow).  A segment
index outside the grid, or a file point/path index outside the arrays,
makes the JS code operate on `undefined` and is modelled as failure. -/
def Map.fromJsonAux (fast : Bool) (data : SerializedMap) : Option Map := do
  let points ← data.points.enum.mapM fun ip => deserializePoint ip.1 ip.2
  let paths := deserializePaths points data.paths
  let files ← data.files.mapM fun sf => do
    let fpts ← sf.pointIndices.mapM points.get?
    let fpas ← sf.pathIndices.mapM paths.get?
    pure (⟨sf.id, sf.name, mkGroup fpts fpas⟩ : TimelineFile)
  if fast then
    let grid ← data.segments.foldlM
      (fun g sseg => do
        if sseg.index < gridSize then
          let spts ← sseg.pointIndices.mapM points.get?
          let spas ← sseg.pathIndices.mapM paths.get?
          pure (Function.update g sseg.index
            (((g sseg.index).addPoints spts).addPaths spas))
        else none)
      (fun _ => TimelineGroup.createEmpty)
    pure ⟨grid, files⟩
  else
    pure ⟨files.foldl (fun g f => indexGroup g f.data) (fun _ => TimelineGroup.createEmpty),
      files⟩

/-- Map.fromJson: the branch condition is
`data.latStepCounts === LAT_STEP_COUNTS && data.lonStepCounts === LON_STEP_COUNTS`. -/
def Map.fromJson (data : SerializedMap) : Option Map :=
  Map.fromJsonAux (decide (data.latStepCounts = latStepCounts
    ∧ data.lonStepCounts = lonStepCounts)) data

/-- One serialize/deserialize cycle. -/
def roundTrip (m : Map) : Option Map := Map.fromJson m.toJson

/-- `n` serialize/deserialize cycles. -/
def roundTripN : ℕ → Map → Option Map
  | 0, m => some m
  | n + 1, m => (roundTrip m).bind (roundTripN n)

/-- The grid-renaming that one serialize/deserialize cycle performs: every
point is re-created with the same coordinates and timestamp but with its
serialization index as its new object identity; every path likewise. -/
def rhoPt (P : List TimelinePoint) (p : TimelinePoint) : TimelinePoint :=
  ⟨(idxOf P p).getD 0, p.lat, p.lon, p.timestamp⟩

/-- Path analogue of rhoPt. -/
def rhoPa (P : List TimelinePoint) (Q : List TimelinePath) (pa : TimelinePath) : TimelinePath :=
  ⟨(idxOf Q pa).getD 0, rhoPt P pa.a, rhoPt P pa.b⟩

/-- The whole map after one round trip: same structure with every point and
path renamed by its serialization index (proved below, roundTrip_eq). -/
def renameMap (m : Map) : Map :=
  ⟨fun c => ⟨(m.grid c).points.map (rhoPt (collectAll m).1),
     (m.grid c).paths.map (rhoPa (collectAll m).1 (collectAll m).2)⟩,
   m.files.map fun f => ⟨f.id, f.name,
     ⟨f.data.points.map (rhoPt (collectAll m).1),
      f.data.paths.map (rhoPa (collectAll m).1 (collectAll m).2)⟩⟩⟩

/-- One grid cell of `renameMap`: the original cell contents with every
point and path renamed by its serialization index. -/
def renCell (m : Map) (c : ℕ) : TimelineGroup :=
  ⟨(m.grid c).points.map (rhoPt (collectAll m).1),
   (m.grid c).paths.map (rhoPa (collectAll m).1 (collectAll m).2)⟩

/-- The result of the slow (reindex-replaying) deserialization branch on a
map's own serialized form: the renamed files, with the grid rebuilt from
scratch by replaying addFile-style indexing (proved below,
fromJsonAux_slow_eq). -/
def slowMap (m : Map) : Map :=
  ⟨(renameMap m).files.foldl (fun g f => indexGroup g f.data)
     (fun _ => TimelineGroup.createEmpty),
   (renameMap m).files⟩

/-! ## Invariants and reachability -/

/-- Valid coordinates (every TimelinePoint the program constructs passes
the LocationPoint validation). -/
def PtOk (p : TimelinePoint) : Prop :=
  -90 ≤ p.lat ∧ p.lat ≤ 90 ∧ -180 ≤ p.lon ∧ p.lon ≤ 180

/-- Both endpoints valid. -/
def PathOk (pa : TimelinePath) : Prop := PtOk pa.a ∧ PtOk pa.b

/-- A well-formed imported file: its data sets are duplicate-free (they are
JS Sets) and every coordinate passed validation. -/
def FileOk (f : TimelineFile) : Prop :=
  f.data.points.Nodup ∧ f.data.paths.Nodup ∧ (∀ p ∈ f.data.points, PtOk p)
    ∧ ∀ pa ∈ f.data.paths, PathOk pa

/-- The file shares no point or path reference with any of the given files. -/
def DisjFrom (f : TimelineFile) (fs : List TimelineFile) : Prop :=
  ∀ g ∈ fs, (∀ p ∈ f.data.points, p ∉ g.data.points)
    ∧ ∀ pa ∈ f.data.paths, pa ∉ g.data.paths

/-- Pairwise reference-disjointness of stored files' data. -/
def FilesDisj (fs : List TimelineFile) : Prop :=
  fs.Pairwise fun f g => (∀ p ∈ f.data.points, p ∉ g.data.points)
    ∧ ∀ pa ∈ f.data.paths, pa ∉ g.data.paths

/-- Soundness of the grid cells: every indexed point sits in the cell its
coordinates map to, is valid, and is owned by a stored file; every indexed
path sits in an endpoint cell, has valid endpoints, and is owned by a
stored file; cells are duplicate-free. -/
structure CellSound (m : Map) : Prop where
  cellPt : ∀ c, ∀ p ∈ (m.grid c).points,
    c = cellOfPt p ∧ PtOk p ∧ ∃ f ∈ m.files, p ∈ f.data.points
  cellPa : ∀ c, ∀ pa ∈ (m.grid c).paths,
    (c = cellOfPt pa.a ∨ c = cellOfPt pa.b) ∧ PathOk pa ∧ ∃ f ∈ m.files, pa ∈ f.data.paths
  cellNodup : ∀ c, (m.grid c).points.Nodup ∧ (m.grid c).paths.Nodup

/-- The full consistency invariant maintained by clean operation sequences:
cell soundness, completeness (every file item is in its cell(s)), file
well-formedness and pairwise disjointness of file data. -/
structure GoodMap (m : Map) : Prop where
  filesOk : ∀ f ∈ m.files, FileOk f
  disj : FilesDisj m.files
  cellPt : ∀ c, ∀ p ∈ (m.grid c).points,
    c = cellOfPt p ∧ ∃ f ∈ m.files, p ∈ f.data.points
  cellPa : ∀ c, ∀ pa ∈ (m.grid c).paths,
    (c = cellOfPt pa.a ∨ c = cellOfPt pa.b) ∧ ∃ f ∈ m.files, pa ∈ f.data.paths
  inCellPt : ∀ f ∈ m.files, ∀ p ∈ f.data.points, p ∈ (m.grid (cellOfPt p)).points
  inCellPa : ∀ f ∈ m.files, ∀ pa ∈ f.data.paths,
    pa ∈ (m.grid (cellOfPt pa.a)).paths ∧ pa ∈ (m.grid (cellOfPt pa.b)).paths
  cellNodup : ∀ c, (m.grid c).points.Nodup ∧ (m.grid c).paths.Nodup

/-- Maps built from empty by addFile / removeFile where every added file is
well-formed and shares no point/path reference with the files stored at
the time of addition. -/
inductive Reachable : Map → Prop
  | empty : Reachable Map.createEmpty
  | add {m : Map} {f : TimelineFile} : Reachable m → FileOk f → DisjFrom f m.files →
      Reachable (m.addFile f)
  | remove {m : Map} (f : TimelineFile) : Reachable m → Reachable (m.removeFile f)

/-! ## Timeline parser (part_004: IOSTimelineParser / AndroidTimelineParser).
The two parsers' buildTimelineData bodies are character-for-character
identical; they are embedded once.  An entry as produced by parseEntry
always carries both a start and an end location (entries missing either
are dropped before buildTimelineData runs). -/

/-- A parsed timeline entry (the TimelineEntry interface). -/
structure TimelineEntry where
  startTime : Option ℤ
  endTime : Option ℤ
  startLoc : ℚ × ℚ
  endLoc : ℚ × ℚ
  isPath : Bool
  pathPoints : List (ℚ × ℚ)
deriving DecidableEq

/-- The end-point emission cutoff in buildTimelineData:
`Math.sqrt((dLat)^2 + (dLon)^2) > 0.0001` — "Roughly 11 meters".  Squaring
both sides (both non-negative) gives the equivalent rational test. -/
def exceedsCutoff (s e : ℚ × ℚ) : Bool :=
  decide ((e.1 - s.1) ^ 2 + (e.2 - s.2) ^ 2 > (1 / 10000) ^ 2)

/-- Dense-path branch, point emission: one fresh TimelinePoint per
intermediate coordinate, all using the entry's nominal timestamp.
The numeric counter models fresh JS object identities. -/
def emitDensePoints (ts : ℤ) : List (ℚ × ℚ) → ℕ → List TimelinePoint × ℕ
  | [], c => ([], c)
  | l :: ls, c =>
    let r := emitDensePoints ts ls (c + 1)
    (⟨c, l.1, l.2, ts⟩ :: r.1, r.2)

/-- Dense-path branch, edge emission: one fresh TimelinePath between every
consecutive pair, each with two freshly constructed endpoint objects. -/
def emitDensePaths (ts : ℤ) : List (ℚ × ℚ) → ℕ → List TimelinePath × ℕ
  | [], c => ([], c)
  | [_], c => ([], c)
  | l1 :: l2 :: ls, c =>
    let r := emitDensePaths ts (l2 :: ls) (c + 3)
    (⟨c + 2, ⟨c, l1.1, l1.2, ts⟩, ⟨c + 1, l2.1, l2.2, ts⟩⟩ :: r.1, r.2)

/-- One loop iteration of buildTimelineData before the gap connection:
dense-path branch when pathPoints is non-empty, otherwise the start point,
the end point when the cutoff is exceeded, and one activity edge when the
entry is a movement. -/
def processEntry (now : ℤ) (e : TimelineEntry) (c : ℕ) :
    List TimelinePoint × List TimelinePath × ℕ :=
  let ts : ℤ := e.startTime.getD now
  if e.pathPoints ≠ [] then
    let p := emitDensePoints ts e.pathPoints c
    let q := emitDensePaths ts e.pathPoints p.2
    (p.1, q.1, q.2)
  else
    let endTs : ℤ := e.endTime.getD ts
    let pts := (⟨c, e.startLoc.1, e.startLoc.2, ts⟩ : TimelinePoint) ::
      (if exceedsCutoff e.startLoc e.endLoc then
        [(⟨c + 1, e.endLoc.1, e.endLoc.2, endTs⟩ : TimelinePoint)] else [])
    let c1 := if exceedsCutoff e.startLoc e.endLoc then c + 2 else c + 1
    if e.isPath then
      (pts, [⟨c1 + 2, ⟨c1, e.startLoc.1, e.startLoc.2, ts⟩,
        ⟨c1 + 1, e.endLoc.1, e.endLoc.2, endTs⟩⟩], c1 + 3)
    else (pts, [], c1)

/-- The buildTimelineData loop: process each entry, then connect it to the
previous entry by one gap-edge (the previous entry's end location and the
current entry's start location are always present). -/
def buildLoop (now : ℤ) :
    List TimelineEntry → Option TimelineEntry → ℕ →
      List TimelinePoint × List TimelinePath × ℕ
  | [], _, c => ([], [], c)
  | e :: rest, prev, c =>
    let ts : ℤ := e.startTime.getD now
    let pr := processEntry now e c
    let gap : List TimelinePath × ℕ :=
      match prev with
      | none => ([], pr.2.2)
      | some pe =>
        let pet : ℤ := pe.endTime.getD now
        ([⟨pr.2.2 + 2, ⟨pr.2.2, pe.endLoc.1, pe.endLoc.2, pet⟩,
          ⟨pr.2.2 + 1, e.startLoc.1, e.startLoc.2, ts⟩⟩], pr.2.2 + 3)
    let r := buildLoop now rest (some e) gap.2
    (pr.1 ++ r.1, pr.2.1 ++ gap.1 ++ r.2.1, r.2.2)

/-- buildTimelineData: run the loop and build the resulting TimelineData
group (`now` models the `new Date()` fallback timestamp). -/
def buildTimelineData (es : List TimelineEntry) (now : ℤ) : TimelineGroup :=
  mkGroup (buildLoop now es none 0).1 (buildLoop now es none 0).2.1

/-- Coordinate observation of an emitted point. -/
def stripLoc (p : TimelinePoint) : ℚ × ℚ := (p.lat, p.lon)

/-- Coordinate observation of an emitted edge. -/
def stripPathLoc (pa : TimelinePath) : (ℚ × ℚ) × (ℚ × ℚ) :=
  (stripLoc pa.a, stripLoc pa.b)

/-- Specification-side description (for claim C8) of the edges a single
entry contributes: consecutive dense-path pairs, else one activity edge
for a movement entry, else nothing. -/
def specEntryPaths (e : TimelineEntry) : List ((ℚ × ℚ) × (ℚ × ℚ)) :=
  if e.pathPoints ≠ [] then e.pathPoints.zip e.pathPoints.tail
  else if e.isPath then [(e.startLoc, e.endLoc)] else []

/-- Specification-side description (for claim C8) of the full edge output:
per-entry edges, with exactly one gap-edge from the previous entry's end
location to the current entry's start location between consecutive
entries. -/
def specPathsWithGaps : Option (ℚ × ℚ) → List TimelineEntry → List ((ℚ × ℚ) × (ℚ × ℚ))
  | _, [] => []
  | prevEnd, e :: rest =>
    specEntryPaths e
      ++ (match prevEnd with
          | none => []
          | some q => [(q, e.startLoc)])
      ++ specPathsWithGaps (some e.endLoc) rest

/-! ## Concrete scenario values used by counterexamples and witnesses -/

/-- A point shared by reference between two files (legal at the Map API:
nothing in addFile checks for sharing). -/
def pShared : TimelinePoint := ⟨0, 0, 0, 0⟩

/-- First owner of pShared. -/
def fileA : TimelineFile := ⟨"a", "A", mkGroup [pShared] []⟩

/-- Second owner of pShared. -/
def fileB : TimelineFile := ⟨"b", "B", mkGroup [pShared] []⟩

/-- Add two files sharing a point, then remove the first: the second file
still stores the point but the grid no longer holds it. -/
def dirtyMap : Map := ((Map.createEmpty.addFile fileA).addFile fileB).removeFile fileA

/-- A point sitting exactly on the 10-degree cell boundary lat = -80. -/
def pBoundary : TimelinePoint := ⟨0, -80, 0, 0⟩

/-- A map holding only pBoundary. -/
def mapBoundary : Map := Map.createEmpty.addFile ⟨"e", "E", mkGroup [pBoundary] []⟩

/-- A viewport whose upper latitude edge is exactly the cell boundary -80. -/
def boundsBoundary : MapBounds := ⟨-85, -5, -80, 5⟩

/-- The full world rectangle. -/
def worldBounds : MapBounds := ⟨-90, -180, 90, 180⟩

/-- Second endpoint for the shared-path scenario: a distinct object with
the same coordinates as pShared. -/
def qEnd : TimelinePoint := ⟨1, 0, 0, 0⟩

/-- A path whose start endpoint is the shared point. -/
def sharedPath : TimelinePath := ⟨0, pShared, qEnd⟩

/-- Second owner of pShared that also owns a path ending at it. -/
def fileC : TimelineFile := ⟨"b", "B", mkGroup [pShared] [sharedPath]⟩

/-- Dirty state for claim C6: fileC's point pShared is out of the grid but
still serialized (as a path endpoint), so the fast and slow
deserialization paths disagree. -/
def dirtyMapC : Map := ((Map.createEmpty.addFile fileA).addFile fileC).removeFile fileA

/-- A stored file with id "x" and one point. -/
def fileIdX : TimelineFile := ⟨"x", "A", mkGroup [pShared] []⟩

/-- A different (empty, hence data-disjoint) file that reuses id "x". -/
def fileIdX2 : TimelineFile := ⟨"x", "F", mkGroup [] []⟩

/-- A map storing fileIdX. -/
def mapIdX : Map := Map.createEmpty.addFile fileIdX

/-- An entry whose end location differs from its start location by less
than the 0.0001-degree cutoff. -/
def nearEntry : TimelineEntry := ⟨none, none, (0, 0), (1 / 20000, 0), false, []⟩

/-- Generic small witness data: two points and a path. -/
def wPoint : TimelinePoint := ⟨0, 10, 20, 5⟩

/-- Generic small witness data. -/
def wPoint2 : TimelinePoint := ⟨1, -50, 100, 6⟩

/-- Generic small witness data. -/
def wPath : TimelinePath := ⟨0, wPoint, wPoint2⟩

/-- Generic small witness file. -/
def wFile : TimelineFile := ⟨"w", "W", mkGroup [wPoint, wPoint2] [wPath]⟩

/-- Generic small witness map. -/
def wMap : Map := Map.createEmpty.addFile wFile

/-- Disjoint second witness file with a fresh id. -/
def wFile2 : TimelineFile := ⟨"w2", "W2", mkGroup [⟨2, 30, 40, 7⟩] []⟩

/-- First of two witness files sharing one id. -/
def wDup1 : TimelineFile := ⟨"dup", "D1", mkGroup [⟨7, 1, 1, 0⟩] []⟩

/-- Second of two witness files sharing one id. -/
def wDup2 : TimelineFile := ⟨"dup", "D2", mkGroup [⟨8, 2, 2, 0⟩] []⟩

instance (p : TimelinePoint) : Decidable (PtOk p) := by
  unfold PtOk
  infer_instance

instance (pa : TimelinePath) : Decidable (PathOk pa) := by
  unfold PathOk
  infer_instance

instance (f : TimelineFile) : Decidable (FileOk f) := by
  unfold FileOk
  infer_instance

instance (f : TimelineFile) (fs : List TimelineFile) : Decidable (DisjFrom f fs) := by
  unfold DisjFrom
  infer_instance

/-! ## The statements of the multi-part claims, as named predicates -/

/-- Claim C1's conclusion for one map: every number of round trips succeeds
and preserves statistics, file count, file ids, and the coordinate-level
viewport-query results for every bounds. -/
def C1Conclusion (m : Map) : Prop :=
  ∀ (n : ℕ) (b : MapBounds), ∃ m' : Map, roundTripN n m = some m'
    ∧ m'.getStatistics = m.getStatistics
    ∧ m'.getAllFiles.length = m.getAllFiles.length
    ∧ m'.fileIds = m.fileIds
    ∧ m'.obsQueryPoints b = m.obsQueryPoints b
    ∧ m'.obsQueryPaths b = m.obsQueryPaths b

/-- Claim C2's conclusion for one map and one viewport: queryViewport is
sound (returns only indexed points inside the rectangle and indexed paths
with an endpoint inside), complete for the full-world rectangle, and empty
on a rectangle disjoint from all indexed data. -/
def C2Conclusion (m : Map) (b : MapBounds) : Prop :=
  (∀ q ∈ (m.queryViewport b).1, (∃ c, q ∈ (m.grid c).points) ∧ qvPointIn b q = true)
  ∧ (∀ q ∈ (m.queryViewport b).2, (∃ c, q ∈ (m.grid c).paths)
      ∧ (qvPointIn b q.a = true ∨ qvPointIn b q.b = true))
  ∧ (∀ q, (∃ c, q ∈ (m.grid c).points) → q ∈ (m.queryViewport worldBounds).1)
  ∧ (∀ q, (∃ c, q ∈ (m.grid c).paths) → q ∈ (m.queryViewport worldBounds).2)
  ∧ ((∀ c, ∀ q ∈ (m.grid c).points, qvPointIn b q = false) →
     (∀ c, ∀ q ∈ (m.grid c).paths, qvPointIn b q.a = false ∧ qvPointIn b q.b = false) →
     (m.queryViewport b).1 = ∅ ∧ (m.queryViewport b).2 = ∅)

/-- Claim C3's conclusion for one map: every stored file's point is indexed
in exactly the cell of its coordinates, every stored file's path in
exactly the cell(s) of its endpoints. -/
def C3Conclusion (m : Map) : Prop :=
  ∀ f ∈ m.files,
    (∀ p ∈ f.data.points, ∀ c, p ∈ (m.grid c).points ↔ c = cellOfPt p)
    ∧ ∀ pa ∈ f.data.paths, ∀ c,
        pa ∈ (m.grid c).paths ↔ (c = cellOfPt pa.a ∨ c = cellOfPt pa.b)

/-- Claim C5's conclusion for one map and one file: add-then-remove
restores the statistics and the file list and leaves none of the file's
points/paths in any cell. -/
def C5Conclusion (m : Map) (f : TimelineFile) : Prop :=
  ((m.addFile f).removeFile f).getStatistics = m.getStatistics
  ∧ ((m.addFile f).removeFile f).files = m.files
  ∧ (∀ p ∈ f.data.points, ∀ c, p ∉ (((m.addFile f).removeFile f).grid c).points)
  ∧ ∀ pa ∈ f.data.paths, ∀ c, pa ∉ (((m.addFile f).removeFile f).grid c).paths

/-- Claim C6's conclusion for one map: the fast and the slow
deserialization paths both succeed on its serialized form and agree on
statistics and on every viewport query. -/
def C6Conclusion (m : Map) : Prop :=
  ∃ mf ms : Map, Map.fromJsonAux true m.toJson = some mf
    ∧ Map.fromJsonAux false m.toJson = some ms
    ∧ mf.getStatistics = ms.getStatistics
    ∧ ∀ b : MapBounds, mf.queryViewport b = ms.queryViewport b

/-- Claim C7's conclusion (amended) for one dense-path-free entry: the
start location is emitted as a point; the end location is emitted as a
second point exactly when the 0.0001-degree cutoff is exceeded; movement
entries additionally emit exactly one start-to-end edge. -/
def C7Conclusion (e : TimelineEntry) (now : ℤ) : Prop :=
  (buildTimelineData [e] now).points.map stripLoc
      = e.startLoc :: (if exceedsCutoff e.startLoc e.endLoc then [e.endLoc] else [])
    ∧ (buildTimelineData [e] now).paths.map stripPathLoc
      = (if e.isPath then [(e.startLoc, e.endLoc)] else [])

/-- Claim C10's conclusion for one map and two files sharing an id: both
are appended and stored, both contribute to the statistics, and removal by
that id removes only the first of them. -/
def C10Conclusion (m : Map) (f1 f2 : TimelineFile) : Prop :=
  ((m.addFile f1).addFile f2).getAllFiles = m.files ++ [f1, f2]
  ∧ ((m.addFile f1).addFile f2).getStatistics
      = (m.getStatistics.1 + f1.data.points.length + f2.data.points.length,
         m.getStatistics.2 + f1.data.paths.length + f2.data.paths.length)
  ∧ (((m.addFile f1).addFile f2).removeFile f2).getAllFiles = m.files ++ [f2]

/-! ## Generic lemmas about the JS-Set list operations -/

theorem mem_addUnique {α : Type} [DecidableEq α] {l : List α} {y x : α} :
    x ∈ addUnique l y ↔ x ∈ l ∨ x = y := by
  unfold addUnique
  by_cases h : y ∈ l
  · simp only [if_pos h]
    constructor
    · exact Or.inl
    · rintro (hx | rfl)
      · exact hx
      · exact h
  · simp [if_neg h]

theorem nodup_addUnique {α : Type} [DecidableEq α] {l : List α} {y : α}
    (h : l.Nodup) : (addUnique l y).Nodup := by
  unfold addUnique
  by_cases hy : y ∈ l
  · simpa [if_pos hy]
  · simpa [if_neg hy, List.nodup_append, h]

theorem mem_foldl_addUnique {α : Type} [DecidableEq α] (l : List α) :
    ∀ (acc : List α) (x : α), x ∈ l.foldl addUnique acc ↔ x ∈ acc ∨ x ∈ l := by
  induction l with
  | nil => simp
  | cons y l ih =>
    intro acc x
    simp only [List.foldl_cons, ih, mem_addUnique, List.mem_cons]
    tauto

theorem nodup_foldl_addUnique {α : Type} [DecidableEq α] (l : List α) :
    ∀ (acc : List α), acc.Nodup → (l.foldl addUnique acc).Nodup := by
  induction l with
  | nil => intro acc h; simpa using h
  | cons y l ih =>
    intro acc hacc
    exact ih _ (nodup_addUnique hacc)

theorem foldl_addUnique_fresh {α : Type} [DecidableEq α] (l : List α) :
    ∀ (acc : List α), l.Nodup → (∀ x ∈ l, x ∉ acc) → l.foldl addUnique acc = acc ++ l := by
  induction l with
  | nil => simp
  | cons y l ih =>
    intro acc hnd hfresh
    have hy : y ∉ acc := hfresh y (by simp)
    have : addUnique acc y = acc ++ [y] := by simp [addUnique, hy]
    rw [List.foldl_cons, this, ih (acc ++ [y]) hnd.of_cons]
    · simp
    · intro x hx
      simp only [List.mem_append, List.mem_singleton]
      rintro (h | rfl)
      · exact hfresh x (by simp [hx]) h
      · exact (List.nodup_cons.mp hnd).1 hx

theorem mkGroup_eq {ps : List TimelinePoint} {pas : List TimelinePath}
    (h1 : ps.Nodup) (h2 : pas.Nodup) : mkGroup ps pas = ⟨ps, pas⟩ := by
  unfold mkGroup TimelineGroup.addPoints TimelineGroup.addPaths TimelineGroup.createEmpty
  simp only
  rw [foldl_addUnique_fresh ps [] h1 (by simp), foldl_addUnique_fresh pas [] h2 (by simp)]
  simp

theorem mem_foldl_erase {α : Type} [DecidableEq α] (ps : List α) :
    ∀ (l : List α), l.Nodup →
      ∀ x, (x ∈ ps.foldl (fun l p => l.erase p) l ↔ x ∈ l ∧ x ∉ ps) := by
  induction ps with
  | nil => simp
  | cons p ps ih =>
    intro l hnd x
    rw [List.foldl_cons, ih _ (hnd.erase p), hnd.mem_erase_iff]
    simp only [List.mem_cons]
    tauto

theorem nodup_foldl_erase {α : Type} [DecidableEq α] (ps : List α) :
    ∀ (l : List α), l.Nodup → (ps.foldl (fun l p => l.erase p) l).Nodup := by
  induction ps with
  | nil => intro l h; simpa using h
  | cons p ps ih =>
    intro l hnd
    exact ih _ (hnd.erase p)

/-! ## Lemmas about idxOf -/

theorem idxOf_eq_none {α : Type} [DecidableEq α] (l : List α) (x : α) :
    idxOf l x = none ↔ x ∉ l := by
  induction l with
  | nil => simp [idxOf]
  | cons y l ih =>
    simp only [idxOf, List.mem_cons]
    by_cases h : y = x
    · simp [h]
    · rw [if_neg h, Option.map_eq_none', ih]
      constructor
      · intro hx hc
        rcases hc with rfl | hm
        · exact h rfl
        · exact hx hm
      · intro hx hm
        exact hx (Or.inr hm)

theorem idxOf_spec {α : Type} [DecidableEq α] :
    ∀ (l : List α) (x : α) (i : ℕ), idxOf l x = some i → l.get? i = some x := by
  intro l
  induction l with
  | nil => intro x i h; simp [idxOf] at h
  | cons y l ih =>
    intro x i h
    simp only [idxOf] at h
    by_cases hy : y = x
    · rw [if_pos hy] at h
      cases h
      simp [hy]
    · rw [if_neg hy] at h
      rcases Option.map_eq_some'.mp h with ⟨j, hj, rfl⟩
      simpa using ih x j hj

theorem idxOf_lt_length {α : Type} [DecidableEq α] {l : List α} {x : α} {i : ℕ}
    (h : idxOf l x = some i) : i < l.length :=
  List.get?_eq_some.mp (idxOf_spec l x i h) |>.1

theorem idxOf_isSome_of_mem {α : Type} [DecidableEq α] :
    ∀ (l : List α) (x : α), x ∈ l → ∃ i, idxOf l x = some i := by
  intro l x hx
  cases h : idxOf l x with
  | none => exact absurd ((idxOf_eq_none l x).mp h) (by simp [hx])
  | some i => exact ⟨i, rfl⟩

theorem idxOf_nodup_get {α : Type} [DecidableEq α] :
    ∀ (l : List α), l.Nodup → ∀ (i : ℕ) (x : α), l.get? i = some x → idxOf l x = some i := by
  intro l
  induction l with
  | nil => intro _ i x h; simp at h
  | cons y l ih =>
    intro hnd i x h
    cases i with
    | zero =>
      simp only [List.get?] at h
      cases h
      simp [idxOf]
    | succ j =>
      simp only [List.get?] at h
      have hx : x ∈ l := List.get?_mem h
      have hne : y ≠ x := by
        rintro rfl
        exact (List.nodup_cons.mp hnd).1 hx
      simp only [idxOf, if_neg hne, ih hnd.of_cons j x h]
      rfl

theorem idxOf_inj {α : Type} [DecidableEq α] {l : List α} {x y : α} {i : ℕ}
    (hx : idxOf l x = some i) (hy : idxOf l y = some i) : x = y := by
  have h1 := idxOf_spec l x i hx
  have h2 := idxOf_spec l y i hy
  rw [h1] at h2
  exact Option.some_inj.mp h2

/-! ## Lemmas about the grid-cell index -/

theorem getSegmentIndex_decomp (lat lon : ℚ) :
    ∃ la lo : ℕ, la < 18 ∧ lo < 36 ∧ getSegmentIndex lat lon = la * 36 + lo := by
  unfold getSegmentIndex
  refine ⟨(max 0 (min (18 - 1) ⌊(lat + 90) / 180 * 18⌋)).toNat,
    (max 0 (min (36 - 1) ⌊(lon + 180) / 360 * 36⌋)).toNat, ?_, ?_, ?_⟩ <;> omega

theorem getSegmentIndex_lt (lat lon : ℚ) : getSegmentIndex lat lon < 648 := by
  obtain ⟨la, lo, h1, h2, h3⟩ := getSegmentIndex_decomp lat lon
  omega

/-! ## Membership lemmas for TimelineGroup operations -/

theorem TimelineGroup.mem_addPoints (g : TimelineGroup) (ps : List TimelinePoint)
    (q : TimelinePoint) : q ∈ (g.addPoints ps).points ↔ q ∈ g.points ∨ q ∈ ps := by
  unfold TimelineGroup.addPoints
  exact mem_foldl_addUnique ps g.points q

theorem TimelineGroup.addPoints_paths (g : TimelineGroup) (ps : List TimelinePoint) :
    (g.addPoints ps).paths = g.paths := rfl

theorem TimelineGroup.mem_addPaths (g : TimelineGroup) (ps : List TimelinePath)
    (q : TimelinePath) : q ∈ (g.addPaths ps).paths ↔ q ∈ g.paths ∨ q ∈ ps := by
  unfold TimelineGroup.addPaths
  exact mem_foldl_addUnique ps g.paths q

theorem TimelineGroup.addPaths_points (g : TimelineGroup) (ps : List TimelinePath) :
    (g.addPaths ps).points = g.points := rfl

/-! ## Lemmas about grid indexing and unindexing -/

theorem indexPoint_points (g : ℕ → TimelineGroup) (p : TimelinePoint) (c : ℕ)
    (q : TimelinePoint) :
    q ∈ ((indexPoint g p) c).points ↔ q ∈ (g c).points ∨ (q = p ∧ c = cellOfPt p) := by
  unfold indexPoint
  rw [Function.update_apply]
  by_cases h : c = cellOfPt p
  · rw [if_pos h, TimelineGroup.mem_addPoints]
    subst h
    simp
  · rw [if_neg h]
    tauto

theorem indexPoint_paths (g : ℕ → TimelineGroup) (p : TimelinePoint) (c : ℕ) :
    ((indexPoint g p) c).paths = (g c).paths := by
  unfold indexPoint
  rw [Function.update_apply]
  by_cases h : c = cellOfPt p
  · rw [if_pos h, TimelineGroup.addPoints_paths, h]
  · rw [if_neg h]

theorem foldl_indexPoint_points (ps : List TimelinePoint) :
    ∀ (g : ℕ → TimelineGroup) (c : ℕ) (q : TimelinePoint),
      q ∈ ((ps.foldl indexPoint g) c).points ↔
        q ∈ (g c).points ∨ (q ∈ ps ∧ c = cellOfPt q) := by
  induction ps with
  | nil => simp
  | cons p ps ih =>
    intro g c q
    rw [List.foldl_cons, ih, indexPoint_points]
    simp only [List.mem_cons]
    by_cases hq : q = p
    · subst hq
      tauto
    · have hne : ¬(q = p ∧ c = cellOfPt p) := fun hc => hq hc.1
      tauto

theorem foldl_indexPoint_paths (ps : List TimelinePoint) :
    ∀ (g : ℕ → TimelineGroup) (c : ℕ),
      ((ps.foldl indexPoint g) c).paths = (g c).paths := by
  induction ps with
  | nil => simp
  | cons p ps ih =>
    intro g c
    rw [List.foldl_cons, ih, indexPoint_paths]

theorem addPathToCell_paths (g : ℕ → TimelineGroup) (c0 : ℕ) (pa : TimelinePath) (c : ℕ)
    (q : TimelinePath) :
    q ∈ ((addPathToCell g c0 pa) c).paths ↔ q ∈ (g c).paths ∨ (q = pa ∧ c = c0) := by
  unfold addPathToCell
  rw [Function.update_apply]
  by_cases h : c = c0
  · rw [if_pos h, TimelineGroup.mem_addPaths]
    subst h
    simp
  · rw [if_neg h]
    tauto

theorem addPathToCell_points (g : ℕ → TimelineGroup) (c0 : ℕ) (pa : TimelinePath) (c : ℕ) :
    ((addPathToCell g c0 pa) c).points = (g c).points := by
  unfold addPathToCell
  rw [Function.update_apply]
  by_cases h : c = c0
  · rw [if_pos h, TimelineGroup.addPaths_points, h]
  · rw [if_neg h]

theorem indexPath_paths (g : ℕ → TimelineGroup) (pa : TimelinePath) (c : ℕ)
    (q : TimelinePath) :
    q ∈ ((indexPath g pa) c).paths ↔
      q ∈ (g c).paths ∨ (q = pa ∧ (c = cellOfPt pa.a ∨ c = cellOfPt pa.b)) := by
  unfold indexPath
  by_cases hse : cellOfPt pa.a = cellOfPt pa.b
  · rw [if_pos hse, addPathToCell_paths]
    rw [hse]
    tauto
  · rw [if_neg hse, addPathToCell_paths, addPathToCell_paths]
    tauto

theorem indexPath_points (g : ℕ → TimelineGroup) (pa : TimelinePath) (c : ℕ) :
    ((indexPath g pa) c).points = (g c).points := by
  unfold indexPath
  by_cases hse : cellOfPt pa.a = cellOfPt pa.b
  · rw [if_pos hse, addPathToCell_points]
  · rw [if_neg hse, addPathToCell_points, addPathToCell_points]

theorem foldl_indexPath_paths (pas : List TimelinePath) :
    ∀ (g : ℕ → TimelineGroup) (c : ℕ) (q : TimelinePath),
      q ∈ ((pas.foldl indexPath g) c).paths ↔
        q ∈ (g c).paths ∨ (q ∈ pas ∧ (c = cellOfPt q.a ∨ c = cellOfPt q.b)) := by
  induction pas with
  | nil => simp
  | cons pa pas ih =>
    intro g c q
    rw [List.foldl_cons, ih, indexPath_paths]
    simp only [List.mem_cons]
    by_cases hq : q = pa
    · subst hq
      tauto
    · have hne : ¬(q = pa ∧ (c = cellOfPt pa.a ∨ c = cellOfPt pa.b)) := fun hc => hq hc.1
      tauto

theorem foldl_indexPath_points (pas : List TimelinePath) :
    ∀ (g : ℕ → TimelineGroup) (c : ℕ),
      ((pas.foldl indexPath g) c).points = (g c).points := by
  induction pas with
  | nil => simp
  | cons pa pas ih =>
    intro g c
    rw [List.foldl_cons, ih, indexPath_points]

theorem indexGroup_points (g : ℕ → TimelineGroup) (d : TimelineGroup) (c : ℕ)
    (q : TimelinePoint) :
    q ∈ ((indexGroup g d) c).points ↔
      q ∈ (g c).points ∨ (q ∈ d.points ∧ c = cellOfPt q) := by
  unfold indexGroup
  rw [foldl_indexPath_points, foldl_indexPoint_points]

theorem indexGroup_paths (g : ℕ → TimelineGroup) (d : TimelineGroup) (c : ℕ)
    (q : TimelinePath) :
    q ∈ ((indexGroup g d) c).paths ↔
      q ∈ (g c).paths ∨ (q ∈ d.paths ∧ (c = cellOfPt q.a ∨ c = cellOfPt q.b)) := by
  unfold indexGroup
  rw [foldl_indexPath_paths, foldl_indexPoint_paths]

theorem TimelineGroup.nodup_addPoints {g : TimelineGroup} (ps : List TimelinePoint)
    (h : g.points.Nodup) : (g.addPoints ps).points.Nodup :=
  nodup_foldl_addUnique ps g.points h

theorem TimelineGroup.nodup_addPaths {g : TimelineGroup} (ps : List TimelinePath)
    (h : g.paths.Nodup) : (g.addPaths ps).paths.Nodup :=
  nodup_foldl_addUnique ps g.paths h

theorem indexPoint_nodup (g : ℕ → TimelineGroup) (p : TimelinePoint)
    (h : ∀ c, (g c).points.Nodup ∧ (g c).paths.Nodup) :
    ∀ c, ((indexPoint g p) c).points.Nodup ∧ ((indexPoint g p) c).paths.Nodup := by
  intro c
  unfold indexPoint
  rw [Function.update_apply]
  by_cases hc : c = cellOfPt p
  · rw [if_pos hc]
    exact ⟨TimelineGroup.nodup_addPoints [p] (h _).1, (h _).2⟩
  · rw [if_neg hc]
    exact h c

theorem foldl_indexPoint_nodup (ps : List TimelinePoint) :
    ∀ (g : ℕ → TimelineGroup), (∀ c, (g c).points.Nodup ∧ (g c).paths.Nodup) →
      ∀ c, ((ps.foldl indexPoint g) c).points.Nodup
        ∧ ((ps.foldl indexPoint g) c).paths.Nodup := by
  induction ps with
  | nil => intro g h; simpa using h
  | cons p ps ih =>
    intro g h
    rw [List.foldl_cons]
    exact ih _ (indexPoint_nodup g p h)

theorem addPathToCell_nodup (g : ℕ → TimelineGroup) (c0 : ℕ) (pa : TimelinePath)
    (h : ∀ c, (g c).points.Nodup ∧ (g c).paths.Nodup) :
    ∀ c, ((addPathToCell g c0 pa) c).points.Nodup
      ∧ ((addPathToCell g c0 pa) c).paths.Nodup := by
  intro c
  unfold addPathToCell
  rw [Function.update_apply]
  by_cases hc : c = c0
  · rw [if_pos hc]
    exact ⟨(h _).1, TimelineGroup.nodup_addPaths [pa] (h _).2⟩
  · rw [if_neg hc]
    exact h c

theorem indexPath_nodup (g : ℕ → TimelineGroup) (pa : TimelinePath)
    (h : ∀ c, (g c).points.Nodup ∧ (g c).paths.Nodup) :
    ∀ c, ((indexPath g pa) c).points.Nodup ∧ ((indexPath g pa) c).paths.Nodup := by
  unfold indexPath
  by_cases hse : cellOfPt pa.a = cellOfPt pa.b
  · rw [if_pos hse]
    exact addPathToCell_nodup _ _ _ h
  · rw [if_neg hse]
    exact addPathToCell_nodup _ _ _ (addPathToCell_nodup _ _ _ h)

theorem foldl_indexPath_nodup (pas : List TimelinePath) :
    ∀ (g : ℕ → TimelineGroup), (∀ c, (g c).points.Nodup ∧ (g c).paths.Nodup) →
      ∀ c, ((pas.foldl indexPath g) c).points.Nodup
        ∧ ((pas.foldl indexPath g) c).paths.Nodup := by
  induction pas with
  | nil => intro g h; simpa using h
  | cons pa pas ih =>
    intro g h
    rw [List.foldl_cons]
    exact ih _ (indexPath_nodup g pa h)

theorem indexGroup_nodup (g : ℕ → TimelineGroup) (d : TimelineGroup)
    (h : ∀ c, (g c).points.Nodup ∧ (g c).paths.Nodup) :
    ∀ c, ((indexGroup g d) c).points.Nodup ∧ ((indexGroup g d) c).paths.Nodup := by
  unfold indexGroup
  exact foldl_indexPath_nodup _ _ (foldl_indexPoint_nodup _ _ h)

/-! ## Removal lemmas -/

theorem TimelineGroup.mem_removePoints (g : TimelineGroup) (ps : List TimelinePoint)
    (h : g.points.Nodup) (q : TimelinePoint) :
    q ∈ (g.removePoints ps).points ↔ q ∈ g.points ∧ q ∉ ps := by
  unfold TimelineGroup.removePoints
  exact mem_foldl_erase ps g.points h q

theorem TimelineGroup.mem_removePaths (g : TimelineGroup) (ps : List TimelinePath)
    (h : g.paths.Nodup) (q : TimelinePath) :
    q ∈ (g.removePaths ps).paths ↔ q ∈ g.paths ∧ q ∉ ps := by
  unfold TimelineGroup.removePaths
  exact mem_foldl_erase ps g.paths h q

theorem unindexPoint_points (g : ℕ → TimelineGroup) (p : TimelinePoint)
    (h : ∀ c, (g c).points.Nodup) (c : ℕ) (q : TimelinePoint) :
    q ∈ ((unindexPoint g p) c).points ↔
      q ∈ (g c).points ∧ ¬(q = p ∧ c = cellOfPt p) := by
  unfold unindexPoint
  rw [Function.update_apply]
  by_cases hc : c = cellOfPt p
  · rw [if_pos hc, TimelineGroup.mem_removePoints _ _ (h _)]
    subst hc
    simp
  · rw [if_neg hc]
    tauto

theorem unindexPoint_paths (g : ℕ → TimelineGroup) (p : TimelinePoint) (c : ℕ) :
    ((unindexPoint g p) c).paths = (g c).paths := by
  unfold unindexPoint
  rw [Function.update_apply]
  by_cases hc : c = cellOfPt p
  · rw [if_pos hc, hc]
    rfl
  · rw [if_neg hc]

theorem unindexPoint_nodup (g : ℕ → TimelineGroup) (p : TimelinePoint)
    (h : ∀ c, (g c).points.Nodup ∧ (g c).paths.Nodup) :
    ∀ c, ((unindexPoint g p) c).points.Nodup ∧ ((unindexPoint g p) c).paths.Nodup := by
  intro c
  unfold unindexPoint
  rw [Function.update_apply]
  by_cases hc : c = cellOfPt p
  · rw [if_pos hc]
    exact ⟨nodup_foldl_erase _ _ (h _).1, (h _).2⟩
  · rw [if_neg hc]
    exact h c

theorem foldl_unindexPoint_points (ps : List TimelinePoint) :
    ∀ (g : ℕ → TimelineGroup), (∀ c, (g c).points.Nodup ∧ (g c).paths.Nodup) →
      ∀ (c : ℕ) (q : TimelinePoint),
        q ∈ ((ps.foldl unindexPoint g) c).points ↔
          q ∈ (g c).points ∧ ¬(q ∈ ps ∧ c = cellOfPt q) := by
  induction ps with
  | nil => intro g h c q; simp
  | cons p ps ih =>
    intro g h c q
    rw [List.foldl_cons, ih _ (unindexPoint_nodup g p h),
      unindexPoint_points g p (fun c => (h c).1)]
    simp only [List.mem_cons]
    by_cases hq : q = p
    · subst hq
      tauto
    · have hne : ¬(q = p ∧ c = cellOfPt p) := fun hc => hq hc.1
      tauto

theorem foldl_unindexPoint_paths (ps : List TimelinePoint) :
    ∀ (g : ℕ → TimelineGroup) (c : ℕ),
      ((ps.foldl unindexPoint g) c).paths = (g c).paths := by
  induction ps with
  | nil => simp
  | cons p ps ih =>
    intro g c
    rw [List.foldl_cons, ih, unindexPoint_paths]

theorem foldl_unindexPoint_nodup (ps : List TimelinePoint) :
    ∀ (g : ℕ → TimelineGroup), (∀ c, (g c).points.Nodup ∧ (g c).paths.Nodup) →
      ∀ c, ((ps.foldl unindexPoint g) c).points.Nodup
        ∧ ((ps.foldl unindexPoint g) c).paths.Nodup := by
  induction ps with
  | nil => intro g h; simpa using h
  | cons p ps ih =>
    intro g h
    rw [List.foldl_cons]
    exact ih _ (unindexPoint_nodup g p h)

theorem removePathFromCell_paths (g : ℕ → TimelineGroup) (c0 : ℕ) (pa : TimelinePath)
    (h : ∀ c, (g c).paths.Nodup) (c : ℕ) (q : TimelinePath) :
    q ∈ ((removePathFromCell g c0 pa) c).paths ↔
      q ∈ (g c).paths ∧ ¬(q = pa ∧ c = c0) := by
  unfold removePathFromCell
  rw [Function.update_apply]
  by_cases hc : c = c0
  · rw [if_pos hc, TimelineGroup.mem_removePaths _ _ (h _)]
    subst hc
    simp
  · rw [if_neg hc]
    tauto

theorem removePathFromCell_points (g : ℕ → TimelineGroup) (c0 : ℕ) (pa : TimelinePath)
    (c : ℕ) : ((removePathFromCell g c0 pa) c).points = (g c).points := by
  unfold removePathFromCell
  rw [Function.update_apply]
  by_cases hc : c = c0
  · rw [if_pos hc, hc]
    rfl
  · rw [if_neg hc]

theorem removePathFromCell_nodup (g : ℕ → TimelineGroup) (c0 : ℕ) (pa : TimelinePath)
    (h : ∀ c, (g c).points.Nodup ∧ (g c).paths.Nodup) :
    ∀ c, ((removePathFromCell g c0 pa) c).points.Nodup
      ∧ ((removePathFromCell g c0 pa) c).paths.Nodup := by
  intro c
  unfold removePathFromCell
  rw [Function.update_apply]
  by_cases hc : c = c0
  · rw [if_pos hc]
    exact ⟨(h _).1, nodup_foldl_erase _ _ (h _).2⟩
  · rw [if_neg hc]
    exact h c

theorem unindexPath_paths (g : ℕ → TimelineGroup) (pa : TimelinePath)
    (h : ∀ c, (g c).points.Nodup ∧ (g c).paths.Nodup) (c : ℕ) (q : TimelinePath) :
    q ∈ ((unindexPath g pa) c).paths ↔
      q ∈ (g c).paths ∧ ¬(q = pa ∧ (c = cellOfPt pa.a ∨ c = cellOfPt pa.b)) := by
  unfold unindexPath
  by_cases hse : cellOfPt pa.a = cellOfPt pa.b
  · rw [if_pos hse, removePathFromCell_paths _ _ _ (fun c => (h c).2)]
    rw [hse]
    tauto
  · rw [if_neg hse,
      removePathFromCell_paths _ _ _ (fun c => (removePathFromCell_nodup g _ pa h c).2),
      removePathFromCell_paths _ _ _ (fun c => (h c).2)]
    tauto

theorem unindexPath_points (g : ℕ → TimelineGroup) (pa : TimelinePath) (c : ℕ) :
    ((unindexPath g pa) c).points = (g c).points := by
  unfold unindexPath
  by_cases hse : cellOfPt pa.a = cellOfPt pa.b
  · rw [if_pos hse, removePathFromCell_points]
  · rw [if_neg hse, removePathFromCell_points, removePathFromCell_points]

theorem unindexPath_nodup (g : ℕ → TimelineGroup) (pa : TimelinePath)
    (h : ∀ c, (g c).points.Nodup ∧ (g c).paths.Nodup) :
    ∀ c, ((unindexPath g pa) c).points.Nodup ∧ ((unindexPath g pa) c).paths.Nodup := by
  unfold unindexPath
  by_cases hse : cellOfPt pa.a = cellOfPt pa.b
  · rw [if_pos hse]
    exact removePathFromCell_nodup _ _ _ h
  · rw [if_neg hse]
    exact removePathFromCell_nodup _ _ _ (removePathFromCell_nodup _ _ _ h)

theorem foldl_unindexPath_paths (pas : List TimelinePath) :
    ∀ (g : ℕ → TimelineGroup), (∀ c, (g c).points.Nodup ∧ (g c).paths.Nodup) →
      ∀ (c : ℕ) (q : TimelinePath),
        q ∈ ((pas.foldl unindexPath g) c).paths ↔
          q ∈ (g c).paths ∧ ¬(q ∈ pas ∧ (c = cellOfPt q.a ∨ c = cellOfPt q.b)) := by
  induction pas with
  | nil => intro g h c q; simp
  | cons pa pas ih =>
    intro g h c q
    rw [List.foldl_cons, ih _ (unindexPath_nodup g pa h),
      unindexPath_paths g pa h]
    simp only [List.mem_cons]
    by_cases hq : q = pa
    · subst hq
      tauto
    · have hne : ¬(q = pa ∧ (c = cellOfPt pa.a ∨ c = cellOfPt pa.b)) := fun hc => hq hc.1
      tauto

theorem foldl_unindexPath_points (pas : List TimelinePath) :
    ∀ (g : ℕ → TimelineGroup) (c : ℕ),
      ((pas.foldl unindexPath g) c).points = (g c).points := by
  induction pas with
  | nil => simp
  | cons pa pas ih =>
    intro g c
    rw [List.foldl_cons, ih, unindexPath_points]

theorem foldl_unindexPath_nodup (pas : List TimelinePath) :
    ∀ (g : ℕ → TimelineGroup), (∀ c, (g c).points.Nodup ∧ (g c).paths.Nodup) →
      ∀ c, ((pas.foldl unindexPath g) c).points.Nodup
        ∧ ((pas.foldl unindexPath g) c).paths.Nodup := by
  induction pas with
  | nil => intro g h; simpa using h
  | cons pa pas ih =>
    intro g h
    rw [List.foldl_cons]
    exact ih _ (unindexPath_nodup g pa h)

/-! ## Statistics lemmas -/

theorem foldl_stats (fs : List TimelineFile) :
    ∀ a b : ℕ,
      fs.foldl (fun acc f => (acc.1 + f.data.points.length, acc.2 + f.data.paths.length))
          (a, b)
        = (a + (fs.map fun f => f.data.points.length).sum,
           b + (fs.map fun f => f.data.paths.length).sum) := by
  induction fs with
  | nil => simp
  | cons f fs ih =>
    intro a b
    rw [List.foldl_cons, ih]
    simp only [List.map_cons, List.sum_cons]
    rw [Nat.add_assoc, Nat.add_assoc]

theorem getStatistics_eq (m : Map) :
    m.getStatistics = ((m.files.map fun f => f.data.points.length).sum,
      (m.files.map fun f => f.data.paths.length).sum) := by
  unfold Map.getStatistics
  rw [foldl_stats]
  simp

/-! ## Lemmas about removeFirstById -/

theorem removeFirstById_eq_none (fs : List TimelineFile) (i : String) :
    removeFirstById fs i = none ↔ ∀ g ∈ fs, g.id ≠ i := by
  induction fs with
  | nil => simp [removeFirstById]
  | cons f fs ih =>
    simp only [removeFirstById]
    by_cases h : f.id = i
    · simp [if_pos h, h]
    · rw [if_neg h, Option.map_eq_none', ih]
      constructor
      · intro hx g hg
        rcases List.mem_cons.mp hg with rfl | hm
        · exact h
        · exact hx g hm
      · intro hx g hg
        exact hx g (List.mem_cons_of_mem f hg)

theorem removeFirstById_split (fs : List TimelineFile) (i : String)
    (p : TimelineFile × List TimelineFile) (h : removeFirstById fs i = some p) :
    ∃ l1 l2, fs = l1 ++ p.1 :: l2 ∧ p.2 = l1 ++ l2 ∧ p.1.id = i ∧ ∀ g ∈ l1, g.id ≠ i := by
  induction fs generalizing p with
  | nil => simp [removeFirstById] at h
  | cons f fs ih =>
    simp only [removeFirstById] at h
    by_cases hf : f.id = i
    · rw [if_pos hf] at h
      cases h
      exact ⟨[], fs, by simp, by simp, hf, by simp⟩
    · rw [if_neg hf] at h
      rcases Option.map_eq_some'.mp h with ⟨q, hq, rfl⟩
      obtain ⟨l1, l2, hfs, hrest, hid, hl1⟩ := ih q hq
      refine ⟨f :: l1, l2, by simp [hfs], by simp [hrest], hid, ?_⟩
      intro g hg
      rcases List.mem_cons.mp hg with rfl | hm
      · exact hf
      · exact hl1 g hm

theorem removeFirstById_append (fs : List TimelineFile) (f : TimelineFile)
    (rest : List TimelineFile) (i : String) (hfs : ∀ g ∈ fs, g.id ≠ i) (hf : f.id = i) :
    removeFirstById (fs ++ f :: rest) i = some (f, fs ++ rest) := by
  induction fs with
  | nil => simp [removeFirstById, hf]
  | cons g fs ih =>
    have hg : g.id ≠ i := hfs g (by simp)
    simp only [List.cons_append, removeFirstById, if_neg hg]
    show Option.map (fun p => (p.1, g :: p.2)) (removeFirstById (fs ++ f :: rest) i) = _
    rw [ih (fun x hx => hfs x (List.mem_cons_of_mem g hx))]
    rfl

/-! ## Disjointness helpers -/

theorem disjRel_flip {f g : TimelineFile}
    (h : (∀ p ∈ f.data.points, p ∉ g.data.points)
      ∧ ∀ pa ∈ f.data.paths, pa ∉ g.data.paths) :
    (∀ p ∈ g.data.points, p ∉ f.data.points)
      ∧ ∀ pa ∈ g.data.paths, pa ∉ f.data.paths :=
  ⟨fun p hp hpf => h.1 p hpf hp, fun pa hpa hpaf => h.2 pa hpaf hpa⟩

theorem filesDisj_extract {l1 l2 : List TimelineFile} {fr : TimelineFile}
    (h : FilesDisj (l1 ++ fr :: l2)) :
    FilesDisj (l1 ++ l2) ∧ ∀ g ∈ l1 ++ l2,
      (∀ p ∈ g.data.points, p ∉ fr.data.points)
        ∧ ∀ pa ∈ g.data.paths, pa ∉ fr.data.paths := by
  unfold FilesDisj at h ⊢
  rw [List.pairwise_append] at h
  obtain ⟨h1, h2, h12⟩ := h
  rw [List.pairwise_cons] at h2
  obtain ⟨hfr, h2'⟩ := h2
  constructor
  · rw [List.pairwise_append]
    refine ⟨h1, h2', fun a ha b hb => h12 a ha b (List.mem_cons_of_mem fr hb)⟩
  · intro g hg
    rcases List.mem_append.mp hg with hgl | hgr
    · exact h12 g hgl fr (List.mem_cons_self fr l2)
    · exact disjRel_flip (hfr g hgr)

/-! ## GoodMap preservation -/

theorem goodMap_empty : GoodMap Map.createEmpty := by
  refine ⟨?_, ?_, ?_, ?_, ?_, ?_, ?_⟩
  · intro f hf
    simp [Map.createEmpty] at hf
  · exact List.Pairwise.nil
  · intro c p hp
    simp [Map.createEmpty, TimelineGroup.createEmpty] at hp
  · intro c pa hpa
    simp [Map.createEmpty, TimelineGroup.createEmpty] at hpa
  · intro f hf
    simp [Map.createEmpty] at hf
  · intro f hf
    simp [Map.createEmpty] at hf
  · intro c
    exact ⟨List.nodup_nil, List.nodup_nil⟩

theorem goodMap_addFile {m : Map} {f : TimelineFile} (hm : GoodMap m) (hf : FileOk f)
    (hd : DisjFrom f m.files) : GoodMap (m.addFile f) := by
  unfold Map.addFile
  constructor
  · intro g hg
    rcases List.mem_append.mp hg with hm' | hg'
    · exact hm.filesOk g hm'
    · rw [List.mem_singleton] at hg'
      subst hg'
      exact hf
  · unfold FilesDisj
    rw [List.pairwise_append]
    refine ⟨hm.disj, List.pairwise_singleton _ _, ?_⟩
    intro a ha b hb
    rw [List.mem_singleton] at hb
    subst hb
    exact disjRel_flip (hd a ha)
  · intro c p hp
    rw [indexGroup_points] at hp
    rcases hp with hp | ⟨hp, rfl⟩
    · obtain ⟨hc, g, hg, hpg⟩ := hm.cellPt c p hp
      exact ⟨hc, g, List.mem_append_left _ hg, hpg⟩
    · exact ⟨rfl, f, List.mem_append_right _ (List.mem_singleton_self f), hp⟩
  · intro c pa hpa
    rw [indexGroup_paths] at hpa
    rcases hpa with hpa | ⟨hpa, hc⟩
    · obtain ⟨hc, g, hg, hpg⟩ := hm.cellPa c pa hpa
      exact ⟨hc, g, List.mem_append_left _ hg, hpg⟩
    · exact ⟨hc, f, List.mem_append_right _ (List.mem_singleton_self f), hpa⟩
  · intro g hg p hp
    rw [indexGroup_points]
    rcases List.mem_append.mp hg with hgm | hgf
    · exact Or.inl (hm.inCellPt g hgm p hp)
    · rw [List.mem_singleton] at hgf
      subst hgf
      exact Or.inr ⟨hp, rfl⟩
  · intro g hg pa hpa
    rcases List.mem_append.mp hg with hgm | hgf
    · have h2 := hm.inCellPa g hgm pa hpa
      constructor
      · rw [indexGroup_paths]
        exact Or.inl h2.1
      · rw [indexGroup_paths]
        exact Or.inl h2.2
    · rw [List.mem_singleton] at hgf
      subst hgf
      constructor
      · rw [indexGroup_paths]
        exact Or.inr ⟨hpa, Or.inl rfl⟩
      · rw [indexGroup_paths]
        exact Or.inr ⟨hpa, Or.inr rfl⟩
  · exact indexGroup_nodup m.grid f.data hm.cellNodup

theorem goodMap_removeFile {m : Map} (f : TimelineFile) (hm : GoodMap m) :
    GoodMap (m.removeFile f) := by
  unfold Map.removeFile
  cases hrem : removeFirstById m.files f.id with
  | none => exact hm
  | some p =>
    obtain ⟨fr, rest⟩ := p
    obtain ⟨l1, l2, hsplit, hrest, hid, hl1⟩ := removeFirstById_split m.files f.id _ hrem
    simp only at hsplit hrest
    subst hrest
    have hGnodup := foldl_unindexPoint_nodup fr.data.points m.grid hm.cellNodup
    have hFnodup := foldl_unindexPath_nodup fr.data.paths _ hGnodup
    have hdisj := filesDisj_extract (hsplit ▸ hm.disj)
    have hmemPt : ∀ (c : ℕ) (q : TimelinePoint),
        q ∈ ((fr.data.paths.foldl unindexPath
            (fr.data.points.foldl unindexPoint m.grid)) c).points ↔
          q ∈ (m.grid c).points ∧ ¬(q ∈ fr.data.points ∧ c = cellOfPt q) := by
      intro c q
      rw [foldl_unindexPath_points, foldl_unindexPoint_points _ _ hm.cellNodup]
    have hmemPa : ∀ (c : ℕ) (q : TimelinePath),
        q ∈ ((fr.data.paths.foldl unindexPath
            (fr.data.points.foldl unindexPoint m.grid)) c).paths ↔
          q ∈ (m.grid c).paths
            ∧ ¬(q ∈ fr.data.paths ∧ (c = cellOfPt q.a ∨ c = cellOfPt q.b)) := by
      intro c q
      rw [foldl_unindexPath_paths _ _ hGnodup, foldl_unindexPoint_paths]
    have hsub : ∀ g ∈ l1 ++ l2, g ∈ m.files := by
      intro g hg
      rw [hsplit]
      rcases List.mem_append.mp hg with h | h
      · exact List.mem_append_left _ h
      · exact List.mem_append_right _ (List.mem_cons_of_mem fr h)
    constructor
    · intro g hg
      exact hm.filesOk g (hsub g hg)
    · exact hdisj.1
    · intro c q hq
      rw [hmemPt] at hq
      obtain ⟨hc, g, hg, hqg⟩ := hm.cellPt c q hq.1
      refine ⟨hc, ?_⟩
      rw [hsplit] at hg
      rcases List.mem_append.mp hg with hgl | hgr
      · exact ⟨g, List.mem_append_left _ hgl, hqg⟩
      · rcases List.mem_cons.mp hgr with rfl | hgr'
        · exact absurd ⟨hqg, hc⟩ hq.2
        · exact ⟨g, List.mem_append_right _ hgr', hqg⟩
    · intro c q hq
      rw [hmemPa] at hq
      obtain ⟨hc, g, hg, hqg⟩ := hm.cellPa c q hq.1
      refine ⟨hc, ?_⟩
      rw [hsplit] at hg
      rcases List.mem_append.mp hg with hgl | hgr
      · exact ⟨g, List.mem_append_left _ hgl, hqg⟩
      · rcases List.mem_cons.mp hgr with rfl | hgr'
        · exact absurd ⟨hqg, hc⟩ hq.2
        · exact ⟨g, List.mem_append_right _ hgr', hqg⟩
    · intro g hg q hq
      rw [hmemPt]
      refine ⟨hm.inCellPt g (hsub g hg) q hq, ?_⟩
      rintro ⟨hqfr, _⟩
      exact (hdisj.2 g hg).1 q hq hqfr
    · intro g hg q hq
      have h2 := hm.inCellPa g (hsub g hg) q hq
      have hnot : q ∉ fr.data.paths := (hdisj.2 g hg).2 q hq
      constructor
      · rw [hmemPa]
        exact ⟨h2.1, fun hc => hnot hc.1⟩
      · rw [hmemPa]
        exact ⟨h2.2, fun hc => hnot hc.1⟩
    · exact hFnodup

theorem reachable_goodMap {m : Map} (h : Reachable m) : GoodMap m := by
  induction h with
  | empty => exact goodMap_empty
  | add hr hf hd ih => exact goodMap_addFile ih hf hd
  | remove f hr ih => exact goodMap_removeFile f ih

theorem goodMap_cellSound {m : Map} (hm : GoodMap m) : CellSound m := by
  constructor
  · intro c p hp
    obtain ⟨hc, g, hg, hpg⟩ := hm.cellPt c p hp
    exact ⟨hc, (hm.filesOk g hg).2.2.1 p hpg, g, hg, hpg⟩
  · intro c pa hpa
    obtain ⟨hc, g, hg, hpg⟩ := hm.cellPa c pa hpa
    exact ⟨hc, (hm.filesOk g hg).2.2.2 pa hpg, g, hg, hpg⟩
  · exact hm.cellNodup

/-! ## Viewport-query lemmas -/

theorem mem_foldl_union {α β : Type} [DecidableEq β] (l : List α) (F : α → Finset β) :
    ∀ (init : Finset β) (x : β),
      x ∈ l.foldl (fun s c => s ∪ F c) init ↔ x ∈ init ∨ ∃ c ∈ l, x ∈ F c := by
  induction l with
  | nil => simp
  | cons c l ih =>
    intro init x
    rw [List.foldl_cons, ih]
    simp only [Finset.mem_union, List.mem_cons]
    constructor
    · rintro ((h | h) | ⟨d, hd, hx⟩)
      · exact Or.inl h
      · exact Or.inr ⟨c, Or.inl rfl, h⟩
      · exact Or.inr ⟨d, Or.inr hd, hx⟩
    · rintro (h | ⟨d, rfl | hd, hx⟩)
      · exact Or.inl (Or.inl h)
      · exact Or.inl (Or.inr hx)
      · exact Or.inr ⟨d, hd, hx⟩

theorem mem_scannedCells (sLa eLa sLo eLo : ℤ) (c : ℕ) :
    c ∈ scannedCells sLa eLa sLo eLo ↔
      ∃ la lo : ℕ, la < 18 ∧ lo < 36 ∧ c = la * 36 + lo
        ∧ sLa ≤ (la : ℤ) ∧ (la : ℤ) < eLa ∧ sLo ≤ (lo : ℤ) ∧ (lo : ℤ) < eLo := by
  unfold scannedCells
  simp only [List.mem_flatMap, List.mem_map, List.mem_filter, List.mem_range,
    decide_eq_true_eq]
  constructor
  · rintro ⟨la, ⟨hla, hsa, hea⟩, lo, ⟨hlo, hso, heo⟩, rfl⟩
    exact ⟨la, lo, hla, hlo, rfl, hsa, hea, hso, heo⟩
  · rintro ⟨la, lo, hla, hlo, rfl, hsa, hea, hso, heo⟩
    exact ⟨la, ⟨hla, hsa, hea⟩, lo, ⟨hlo, hso, heo⟩, rfl⟩

theorem mem_queryViewport_points (m : Map) (b : MapBounds) (q : TimelinePoint) :
    q ∈ (m.queryViewport b).1 ↔
      ∃ c ∈ qvCells b, q ∈ (m.grid c).points ∧ qvPointIn b q = true := by
  unfold Map.queryViewport
  rw [mem_foldl_union]
  simp only [Finset.not_mem_empty, false_or, List.mem_toFinset, List.mem_filter]

theorem mem_queryViewport_paths (m : Map) (b : MapBounds) (q : TimelinePath) :
    q ∈ (m.queryViewport b).2 ↔
      ∃ c ∈ qvCells b, q ∈ (m.grid c).paths
        ∧ (qvPointIn b q.a = true ∨ qvPointIn b q.b = true) := by
  unfold Map.queryViewport
  rw [mem_foldl_union]
  simp only [Finset.not_mem_empty, false_or, List.mem_toFinset, List.mem_filter,
    Bool.or_eq_true]

theorem qvCells_world_eq : qvCells worldBounds = scannedCells 0 18 0 36 := by
  have h1 : min (worldBounds.aLat) (worldBounds.bLat) = -90 := by
    norm_num [worldBounds]
  have h2 : max (worldBounds.aLat) (worldBounds.bLat) = 90 := by
    norm_num [worldBounds]
  have h3 : min (worldBounds.aLon) (worldBounds.bLon) = -180 := by
    norm_num [worldBounds]
  have h4 : max (worldBounds.aLon) (worldBounds.bLon) = 180 := by
    norm_num [worldBounds]
  unfold qvCells
  rw [h1, h2, h3, h4]
  have e1 : (max 0 ⌊((-90 : ℚ) + 90) / 180 * 18⌋ : ℤ) = 0 := by norm_num
  have e2 : (min 18 ⌈((90 : ℚ) + 90) / 180 * 18⌉ : ℤ) = 18 := by norm_num
  have e3 : (max 0 ⌊((-180 : ℚ) + 180) / 360 * 36⌋ : ℤ) = 0 := by norm_num
  have e4 : (min 36 ⌈((180 : ℚ) + 180) / 360 * 36⌉ : ℤ) = 36 := by norm_num
  rw [e1, e2, e3, e4]

theorem qvCells_world (c : ℕ) : c ∈ qvCells worldBounds ↔ c < 648 := by
  rw [qvCells_world_eq, mem_scannedCells]
  constructor
  · rintro ⟨la, lo, hla, hlo, rfl, _⟩
    omega
  · intro hc
    refine ⟨c / 36, c % 36, by omega, by omega, by omega, by omega, by omega, by omega,
      by omega⟩

theorem qvPointIn_world {p : TimelinePoint} (h : PtOk p) :
    qvPointIn worldBounds p = true := by
  obtain ⟨h1, h2, h3, h4⟩ := h
  unfold qvPointIn inRect
  rw [decide_eq_true_eq]
  norm_num [worldBounds]
  exact ⟨h1, h2, h3, h4⟩

/-! ## removeFile unfolding helpers -/

theorem removeFile_eq (m : Map) (f fr : TimelineFile) (rest : List TimelineFile)
    (h : removeFirstById m.files f.id = some (fr, rest)) :
    m.removeFile f
      = ⟨fr.data.paths.foldl unindexPath (fr.data.points.foldl unindexPoint m.grid),
         rest⟩ := by
  unfold Map.removeFile
  rw [h]

theorem removeFile_none (m : Map) (f : TimelineFile)
    (h : removeFirstById m.files f.id = none) : m.removeFile f = m := by
  unfold Map.removeFile
  rw [h]

/-! ## Concrete-scenario structure lemmas.  Rational ARITHMETIC does not
kernel-reduce (ℚ normalization runs Nat.gcd, which is well-founded), so
cell indices of concrete points are established once with norm_num and
the concrete maps are rewritten into literal form before evaluating. -/

theorem cellOfPt_pShared : cellOfPt pShared = 342 := by
  show getSegmentIndex 0 0 = 342
  unfold getSegmentIndex
  have h1 : ⌊((0 : ℚ) + 90) / 180 * 18⌋ = 9 := by norm_num
  have h2 : ⌊((0 : ℚ) + 180) / 360 * 36⌋ = 18 := by norm_num
  rw [h1, h2]
  decide

theorem cellOfPt_pBoundary : cellOfPt pBoundary = 54 := by
  show getSegmentIndex (-80) 0 = 54
  unfold getSegmentIndex
  have h1 : ⌊((-80 : ℚ) + 90) / 180 * 18⌋ = 1 := by norm_num
  have h2 : ⌊((0 : ℚ) + 180) / 360 * 36⌋ = 18 := by norm_num
  rw [h1, h2]
  decide

theorem dirtyMap_eq : dirtyMap = ⟨fun _ => TimelineGroup.createEmpty, [fileB]⟩ := by
  have hrem : removeFirstById ((Map.createEmpty.addFile fileA).addFile fileB).files fileA.id
      = some (fileA, [fileB]) := by
    have h := removeFirstById_append [] fileA [fileB] fileA.id (by simp) rfl
    simpa using h
  have h1 := removeFile_eq ((Map.createEmpty.addFile fileA).addFile fileB) fileA fileA
    [fileB] hrem
  show ((Map.createEmpty.addFile fileA).addFile fileB).removeFile fileA = _
  rw [h1]
  congr 1
  funext c
  show (unindexPoint (indexPoint (indexPoint (fun _ => TimelineGroup.createEmpty) pShared)
    pShared) pShared) c = TimelineGroup.createEmpty
  unfold unindexPoint indexPoint
  simp only [Function.update_apply, cellOfPt_pShared]
  by_cases hc : c = 342
  · subst hc
    simp only [eq_self_iff_true, if_true]
    decide
  · simp only [if_neg hc]

theorem dirtyMapC_eq :
    dirtyMapC
      = ⟨fun c => if c = 342 then ⟨[], [sharedPath]⟩ else TimelineGroup.createEmpty,
         [fileC]⟩ := by
  have hrem : removeFirstById ((Map.createEmpty.addFile fileA).addFile fileC).files fileA.id
      = some (fileA, [fileC]) := by
    have h := removeFirstById_append [] fileA [fileC] fileA.id (by simp) rfl
    simpa using h
  have h1 := removeFile_eq ((Map.createEmpty.addFile fileA).addFile fileC) fileA fileA
    [fileC] hrem
  show ((Map.createEmpty.addFile fileA).addFile fileC).removeFile fileA = _
  rw [h1]
  congr 1
  funext c
  show (unindexPoint (indexPath
      (indexPoint (indexPoint (fun _ => TimelineGroup.createEmpty) pShared) pShared)
      sharedPath) pShared) c = _
  unfold unindexPoint indexPath addPathToCell indexPoint
  rw [if_pos (show cellOfPt sharedPath.a = cellOfPt sharedPath.b from rfl)]
  have ha : cellOfPt sharedPath.a = 342 := cellOfPt_pShared
  simp only [Function.update_apply, cellOfPt_pShared, ha]
  by_cases hc : c = 342
  · subst hc
    simp only [eq_self_iff_true, if_true]
    decide
  · simp only [if_neg hc]

theorem mapBoundary_eq :
    mapBoundary
      = ⟨fun c => if c = 54 then ⟨[pBoundary], []⟩ else TimelineGroup.createEmpty,
         [⟨"e", "E", mkGroup [pBoundary] []⟩]⟩ := by
  show Map.createEmpty.addFile _ = _
  unfold Map.addFile
  congr 1
  funext c
  show (indexPoint (fun _ => TimelineGroup.createEmpty) pBoundary) c = _
  unfold indexPoint
  rw [Function.update_apply, cellOfPt_pBoundary]
  by_cases hc : c = 54
  · subst hc
    simp only [eq_self_iff_true, if_true]
    decide
  · simp only [if_neg hc]

theorem qvCells_boundsBoundary : qvCells boundsBoundary = scannedCells 0 1 17 19 := by
  have h1 : min (boundsBoundary.aLat) (boundsBoundary.bLat) = -85 := by
    norm_num [boundsBoundary]
  have h2 : max (boundsBoundary.aLat) (boundsBoundary.bLat) = -80 := by
    norm_num [boundsBoundary]
  have h3 : min (boundsBoundary.aLon) (boundsBoundary.bLon) = -5 := by
    norm_num [boundsBoundary]
  have h4 : max (boundsBoundary.aLon) (boundsBoundary.bLon) = 5 := by
    norm_num [boundsBoundary]
  unfold qvCells
  rw [h1, h2, h3, h4]
  have e1 : (max 0 ⌊((-85 : ℚ) + 90) / 180 * 18⌋ : ℤ) = 0 := by norm_num
  have e2 : (min 18 ⌈((-80 : ℚ) + 90) / 180 * 18⌉ : ℤ) = 1 := by norm_num
  have e3 : (max 0 ⌊((-5 : ℚ) + 180) / 360 * 36⌋ : ℤ) = 17 := by norm_num
  have e4 : (min 36 ⌈((5 : ℚ) + 180) / 360 * 36⌉ : ℤ) = 19 := by
    have hc : ⌈((5 : ℚ) + 180) / 360 * 36⌉ = (19 : ℤ) := by
      rw [Int.ceil_eq_iff]
      norm_num
    rw [hc]
    norm_num
  rw [e1, e2, e3, e4]

theorem queryViewport_cells (m : Map) (b : MapBounds) (l : List ℕ) (h : qvCells b = l) :
    m.queryViewport b
      = (l.foldl (fun s c => s ∪ ((m.grid c).points.filter (qvPointIn b)).toFinset) ∅,
         l.foldl (fun s c => s ∪ ((m.grid c).paths.filter
           (fun pa => qvPointIn b pa.a || qvPointIn b pa.b)).toFinset) ∅) := by
  unfold Map.queryViewport
  rw [h]

/-! ## Claim C4 -/

/-- Claim C4, counterexample: constructing a LocationPoint with latitude
NaN succeeds (every comparison against NaN is false, so neither bounds
check fires), whereas the claim demands that NaN be rejected. -/
theorem c4_counterexample : LocationPoint.ctorOk JSNum.nan (JSNum.num 0) = true := by
  decide

/-- Claim C4 (amended): for ordinary numbers, LocationPoint construction
succeeds exactly when -90 ≤ lat ≤ 90 and -180 ≤ lon ≤ 180 (boundary
values accepted); a NaN coordinate never fails a bounds check, so NaN is
accepted rather than rejected. -/
theorem c4_coordinate_validation (lat lon : ℚ) :
    (LocationPoint.ctorOk (JSNum.num lat) (JSNum.num lon) = true
      ↔ (-90 ≤ lat ∧ lat ≤ 90 ∧ -180 ≤ lon ∧ lon ≤ 180))
    ∧ LocationPoint.ctorOk JSNum.nan (JSNum.num 0) = true
    ∧ LocationPoint.ctorOk (JSNum.num 0) JSNum.nan = true
    ∧ LocationPoint.ctorOk JSNum.nan JSNum.nan = true := by
  refine ⟨?_, by decide, by decide, by decide⟩
  unfold LocationPoint.ctorOk JSNum.ltB JSNum.gtB MIN_LATITUDE MAX_LATITUDE
    MIN_LONGITUDE MAX_LONGITUDE
  simp only [Bool.not_eq_true', Bool.or_eq_false_iff, decide_eq_false_iff_not, not_lt,
    gt_iff_lt]
  constructor
  · rintro ⟨⟨⟨ha, hb⟩, hc⟩, hd⟩
    exact ⟨ha, hb, hc, hd⟩
  · rintro ⟨ha, hb, hc, hd⟩
    exact ⟨⟨⟨ha, hb⟩, hc⟩, hd⟩

/-! ## Claim C9 -/

/-- Claim C9: for coordinates in the valid ranges the cell-index
computation lands in [0, LAT_STEP_COUNTS × LON_STEP_COUNTS) = [0, 647],
so every grid access made through it is in bounds (the clamping makes
this hold even at the upper edges lat = 90, lon = 180). -/
theorem c9_segment_index_in_bounds (lat lon : ℚ) (_h1 : -90 ≤ lat) (_h2 : lat ≤ 90)
    (_h3 : -180 ≤ lon) (_h4 : lon ≤ 180) :
    getSegmentIndex lat lon < latStepCounts * lonStepCounts
      ∧ getSegmentIndex lat lon ≤ 647 := by
  have h := getSegmentIndex_lt lat lon
  constructor
  · have he : latStepCounts * lonStepCounts = 648 := by decide
    rw [he]
    exact h
  · omega

/-- Witness for claim C9 at the boundary point (90, 180). -/
theorem c9_segment_index_in_bounds_witness :
    ((-90 : ℚ) ≤ 90 ∧ (90 : ℚ) ≤ 90 ∧ (-180 : ℚ) ≤ 180 ∧ (180 : ℚ) ≤ 180)
      ∧ (getSegmentIndex 90 180 < latStepCounts * lonStepCounts
          ∧ getSegmentIndex 90 180 ≤ 647) :=
  ⟨by norm_num,
   c9_segment_index_in_bounds 90 180 (by norm_num) (by norm_num) (by norm_num)
     (by norm_num)⟩

/-! ## Claim C2 -/

/-- Claim C2, counterexample: a point sitting exactly on a grid-cell
boundary that coincides with the viewport's upper-latitude edge lies
inside the rectangle and is indexed, yet queryViewport misses it (the
scanned cell range stops one cell short), so the query is not exact. -/
theorem c2_counterexample :
    pBoundary ∈ (mapBoundary.grid (cellOfPt pBoundary)).points
      ∧ qvPointIn boundsBoundary pBoundary = true
      ∧ pBoundary ∉ (mapBoundary.queryViewport boundsBoundary).1 := by
  rw [mapBoundary_eq, cellOfPt_pBoundary,
    queryViewport_cells _ _ _ qvCells_boundsBoundary]
  refine ⟨by decide, by decide, by decide⟩

/-- Claim C2 (amended): for a sound grid index, queryViewport returns only
indexed points inside the rectangle and indexed paths with at least one
endpoint inside (as deduplicated sets); the full-world query returns every
indexed point and path; a query whose rectangle excludes all indexed data
returns empty results.  (Exact completeness for arbitrary rectangles fails,
see the counterexample.) -/
theorem c2_viewport_query (m : Map) (hm : CellSound m) (b : MapBounds) :
    C2Conclusion m b := by
  refine ⟨?_, ?_, ?_, ?_, ?_⟩
  · intro q hq
    rw [mem_queryViewport_points] at hq
    obtain ⟨c, _, hqc, hin⟩ := hq
    exact ⟨⟨c, hqc⟩, hin⟩
  · intro q hq
    rw [mem_queryViewport_paths] at hq
    obtain ⟨c, _, hqc, hin⟩ := hq
    exact ⟨⟨c, hqc⟩, hin⟩
  · rintro q ⟨c, hqc⟩
    obtain ⟨hc, hok, _⟩ := hm.cellPt c q hqc
    rw [mem_queryViewport_points]
    refine ⟨c, ?_, hqc, qvPointIn_world hok⟩
    rw [qvCells_world, hc]
    exact getSegmentIndex_lt q.lat q.lon
  · rintro q ⟨c, hqc⟩
    obtain ⟨hc, hok, _⟩ := hm.cellPa c q hqc
    rw [mem_queryViewport_paths]
    refine ⟨c, ?_, hqc, Or.inl (qvPointIn_world hok.1)⟩
    rw [qvCells_world]
    rcases hc with rfl | rfl
    · exact getSegmentIndex_lt q.a.lat q.a.lon
    · exact getSegmentIndex_lt q.b.lat q.b.lon
  · intro hpts hpas
    constructor
    · rw [Finset.eq_empty_iff_forall_not_mem]
      intro q hq
      rw [mem_queryViewport_points] at hq
      obtain ⟨c, _, hqc, hin⟩ := hq
      rw [hpts c q hqc] at hin
      exact Bool.false_ne_true hin
    · rw [Finset.eq_empty_iff_forall_not_mem]
      intro q hq
      rw [mem_queryViewport_paths] at hq
      obtain ⟨c, _, hqc, hin⟩ := hq
      rcases hin with hin | hin
      · rw [(hpas c q hqc).1] at hin
        exact Bool.false_ne_true hin
      · rw [(hpas c q hqc).2] at hin
        exact Bool.false_ne_true hin

/-- Witness for claim C2 at a concrete sound index and viewport. -/
theorem c2_viewport_query_witness :
    CellSound wMap ∧ C2Conclusion wMap boundsBoundary :=
  have hs : CellSound wMap :=
    goodMap_cellSound (reachable_goodMap
      (Reachable.add Reachable.empty (by decide) (by decide)))
  ⟨hs, c2_viewport_query wMap hs boundsBoundary⟩

/-! ## Claim C3 -/

/-- Claim C3, counterexample: after addFile(A), addFile(B), removeFile(A)
where A and B share a point reference, the point is still stored in B's
data but is in no grid cell, violating the claimed invariant for an
unrestricted operation sequence. -/
theorem c3_counterexample :
    fileB ∈ dirtyMap.files ∧ pShared ∈ fileB.data.points
      ∧ pShared ∉ (dirtyMap.grid (cellOfPt pShared)).points := by
  rw [dirtyMap_eq]
  refine ⟨by decide, by decide, by decide⟩

/-- Claim C3 (amended): after any sequence of addFile/removeFile in which
every added file is well-formed and shares no point/path reference with
the files stored at the time, every stored point is a member of exactly
the cell of its coordinates and every stored path of exactly the cell(s)
of its endpoints. -/
theorem c3_grid_consistency {m : Map} (h : Reachable m) : C3Conclusion m := by
  have hm := reachable_goodMap h
  intro f hf
  constructor
  · intro p hp c
    constructor
    · intro hc
      exact (hm.cellPt c p hc).1
    · rintro rfl
      exact hm.inCellPt f hf p hp
  · intro pa hpa c
    constructor
    · intro hc
      exact (hm.cellPa c pa hc).1
    · rintro (rfl | rfl)
      · exact (hm.inCellPa f hf pa hpa).1
      · exact (hm.inCellPa f hf pa hpa).2

/-- Witness for claim C3 at a concrete clean map. -/
theorem c3_grid_consistency_witness : Reachable wMap ∧ C3Conclusion wMap :=
  have hr : Reachable wMap :=
    Reachable.add Reachable.empty (by decide) (by decide)
  ⟨hr, c3_grid_consistency hr⟩

/-! ## Claim C5 -/

/-- Claim C5, counterexample: a file whose data is disjoint from every
stored file's data but whose id collides with a stored file's id; add
followed by remove deletes the OTHER file (removeFile matches by id), so
getStatistics is not restored. -/
theorem c5_counterexample :
    DisjFrom fileIdX2 mapIdX.files
      ∧ ((mapIdX.addFile fileIdX2).removeFile fileIdX2).getStatistics
          ≠ mapIdX.getStatistics := by
  decide

/-- Claim C5 (amended): when additionally the file's id matches no stored
file's id, addFile then removeFile restores getStatistics and the file
list and removes every one of the file's points and paths from every grid
cell; and removing a file whose id matches no stored file is a no-op, not
an error. -/
theorem c5_remove_inverse (m : Map) (f : TimelineFile) (hm : GoodMap m)
    (_hd : DisjFrom f m.files) (hid : ∀ g ∈ m.files, g.id ≠ f.id) :
    C5Conclusion m f
      ∧ ∀ g : TimelineFile, (∀ x ∈ m.files, x.id ≠ g.id) → m.removeFile g = m := by
  have hrem : removeFirstById (m.files ++ [f]) f.id = some (f, m.files) := by
    have h := removeFirstById_append m.files f [] f.id hid rfl
    simpa using h
  have hre : (m.addFile f).removeFile f
      = ⟨f.data.paths.foldl unindexPath
          (f.data.points.foldl unindexPoint (indexGroup m.grid f.data)), m.files⟩ :=
    removeFile_eq (m.addFile f) f f m.files hrem
  have hN : ∀ c, ((indexGroup m.grid f.data) c).points.Nodup
      ∧ ((indexGroup m.grid f.data) c).paths.Nodup :=
    indexGroup_nodup m.grid f.data hm.cellNodup
  have hN2 := foldl_unindexPoint_nodup f.data.points _ hN
  refine ⟨⟨?_, ?_, ?_, ?_⟩, ?_⟩
  · rw [hre, getStatistics_eq, getStatistics_eq]
  · rw [hre]
  · intro p hp c
    rw [hre]
    show p ∉ ((f.data.paths.foldl unindexPath
      (f.data.points.foldl unindexPoint (indexGroup m.grid f.data))) c).points
    intro hmem
    rw [foldl_unindexPath_points, foldl_unindexPoint_points _ _ hN] at hmem
    obtain ⟨hin, hnot⟩ := hmem
    by_cases hc : c = cellOfPt p
    · exact hnot ⟨hp, hc⟩
    · rw [indexGroup_points] at hin
      rcases hin with hin | ⟨_, hc'⟩
      · exact hc (hm.cellPt c p hin).1
      · exact hc hc'
  · intro pa hpa c
    rw [hre]
    show pa ∉ ((f.data.paths.foldl unindexPath
      (f.data.points.foldl unindexPoint (indexGroup m.grid f.data))) c).paths
    intro hmem
    rw [foldl_unindexPath_paths _ _ hN2, foldl_unindexPoint_paths] at hmem
    obtain ⟨hin, hnot⟩ := hmem
    by_cases hc : c = cellOfPt pa.a ∨ c = cellOfPt pa.b
    · exact hnot ⟨hpa, hc⟩
    · rw [indexGroup_paths] at hin
      rcases hin with hin | ⟨_, hc'⟩
      · exact hc (hm.cellPa c pa hin).1
      · exact hc hc'
  · intro g hg
    exact removeFile_none m g ((removeFirstById_eq_none m.files g.id).mpr hg)

/-- Witness for claim C5 at a concrete map and disjoint fresh-id file. -/
theorem c5_remove_inverse_witness :
    (GoodMap wMap ∧ DisjFrom wFile2 wMap.files ∧ ∀ g ∈ wMap.files, g.id ≠ wFile2.id)
      ∧ C5Conclusion wMap wFile2 :=
  have hg : GoodMap wMap :=
    reachable_goodMap (Reachable.add Reachable.empty (by decide) (by decide))
  ⟨⟨hg, by decide, by decide⟩,
   (c5_remove_inverse wMap wFile2 hg (by decide) (by decide)).1⟩

/-! ## Claim C10 -/

/-- Claim C10: addFile appends unconditionally (no id-uniqueness check),
so two files with the same id are both stored and both counted; a
removeFile with that id removes only the first matching entry, leaving
the second stored. -/
theorem c10_duplicate_ids (m : Map) (f1 f2 : TimelineFile) (hid : f1.id = f2.id)
    (hfresh : ∀ g ∈ m.files, g.id ≠ f1.id) : C10Conclusion m f1 f2 := by
  have hrem : removeFirstById ((m.files ++ [f1]) ++ [f2]) f2.id
      = some (f1, m.files ++ [f2]) := by
    have h := removeFirstById_append m.files f1 [f2] f2.id
      (fun g hg => by rw [← hid]; exact hfresh g hg) hid
    simpa using h
  refine ⟨?_, ?_, ?_⟩
  · show (m.files ++ [f1]) ++ [f2] = m.files ++ [f1, f2]
    simp
  · rw [getStatistics_eq, getStatistics_eq]
    show ((((m.files ++ [f1]) ++ [f2]).map fun f => f.data.points.length).sum,
        (((m.files ++ [f1]) ++ [f2]).map fun f => f.data.paths.length).sum) = _
    simp only [List.map_append, List.sum_append, List.map_cons, List.map_nil,
      List.sum_cons, List.sum_nil, Prod.mk.injEq]
    constructor <;> omega
  · have hre := removeFile_eq ((m.addFile f1).addFile f2) f2 f1 (m.files ++ [f2]) hrem
    rw [hre]
    rfl

/-- Witness for claim C10 at a concrete map and id-sharing file pair. -/
theorem c10_duplicate_ids_witness :
    (wDup1.id = wDup2.id ∧ ∀ g ∈ wMap.files, g.id ≠ wDup1.id)
      ∧ C10Conclusion wMap wDup1 wDup2 :=
  ⟨⟨rfl, by decide⟩, c10_duplicate_ids wMap wDup1 wDup2 rfl (by decide)⟩

/-! ## Parser lemmas (claims C7 and C8) -/

theorem mkGroup_points (ps : List TimelinePoint) (pas : List TimelinePath)
    (h : ps.Nodup) : (mkGroup ps pas).points = ps := by
  unfold mkGroup TimelineGroup.addPaths TimelineGroup.addPoints TimelineGroup.createEmpty
  rw [foldl_addUnique_fresh ps [] h (by simp)]
  simp

theorem mkGroup_paths (ps : List TimelinePoint) (pas : List TimelinePath)
    (h : pas.Nodup) : (mkGroup ps pas).paths = pas := by
  unfold mkGroup TimelineGroup.addPaths TimelineGroup.addPoints TimelineGroup.createEmpty
  rw [foldl_addUnique_fresh pas [] h (by simp)]
  simp

theorem emitDensePoints_ctr (ts : ℤ) : ∀ (l : List (ℚ × ℚ)) (c : ℕ),
    c ≤ (emitDensePoints ts l c).2 := by
  intro l
  induction l with
  | nil => intro c; simp [emitDensePoints]
  | cons x l ih =>
    intro c
    have h := ih (c + 1)
    simp only [emitDensePoints]
    omega

theorem emitDensePaths_spec (ts : ℤ) : ∀ (l : List (ℚ × ℚ)) (c : ℕ),
    c ≤ (emitDensePaths ts l c).2
    ∧ (∀ pa ∈ (emitDensePaths ts l c).1,
        c ≤ pa.pathid ∧ pa.pathid < (emitDensePaths ts l c).2)
    ∧ (emitDensePaths ts l c).1.Pairwise (fun x y => x.pathid < y.pathid)
    ∧ (emitDensePaths ts l c).1.map stripPathLoc = l.zip l.tail := by
  intro l
  induction l with
  | nil => intro c; simp [emitDensePaths]
  | cons l1 ls ih =>
    cases ls with
    | nil => intro c; simp [emitDensePaths]
    | cons l2 ls' =>
      intro c
      obtain ⟨h1, h2, h3, h4⟩ := ih (c + 3)
      simp only [emitDensePaths]
      try dsimp only
      refine ⟨by omega, ?_, ?_, ?_⟩
      · intro pa hpa
        rcases List.mem_cons.mp hpa with rfl | hpa'
        · dsimp only
          omega
        · have := h2 pa hpa'
          omega
      · rw [List.pairwise_cons]
        refine ⟨fun pa hpa => ?_, h3⟩
        have := h2 pa hpa
        try dsimp only
        omega
      · rw [List.map_cons, h4]
        simp [stripPathLoc, stripLoc]

theorem processEntry_dense (now : ℤ) (e : TimelineEntry) (c : ℕ)
    (hp : e.pathPoints ≠ []) :
    processEntry now e c
      = ((emitDensePoints (e.startTime.getD now) e.pathPoints c).1,
         (emitDensePaths (e.startTime.getD now) e.pathPoints
           (emitDensePoints (e.startTime.getD now) e.pathPoints c).2).1,
         (emitDensePaths (e.startTime.getD now) e.pathPoints
           (emitDensePoints (e.startTime.getD now) e.pathPoints c).2).2) := by
  unfold processEntry
  rw [if_pos hp]

theorem processEntry_visit_near (now : ℤ) (e : TimelineEntry) (c : ℕ)
    (hp : ¬e.pathPoints ≠ []) (hcut : exceedsCutoff e.startLoc e.endLoc = false)
    (hip : e.isPath = false) :
    processEntry now e c
      = ([⟨c, e.startLoc.1, e.startLoc.2, e.startTime.getD now⟩], [], c + 1) := by
  unfold processEntry
  rw [if_neg hp]
  simp [hcut, hip]

theorem processEntry_move_near (now : ℤ) (e : TimelineEntry) (c : ℕ)
    (hp : ¬e.pathPoints ≠ []) (hcut : exceedsCutoff e.startLoc e.endLoc = false)
    (hip : e.isPath = true) :
    processEntry now e c
      = ([⟨c, e.startLoc.1, e.startLoc.2, e.startTime.getD now⟩],
         [⟨c + 3, ⟨c + 1, e.startLoc.1, e.startLoc.2, e.startTime.getD now⟩,
           ⟨c + 2, e.endLoc.1, e.endLoc.2, e.endTime.getD (e.startTime.getD now)⟩⟩],
         c + 4) := by
  unfold processEntry
  rw [if_neg hp]
  simp [hcut, hip]

theorem processEntry_visit_far (now : ℤ) (e : TimelineEntry) (c : ℕ)
    (hp : ¬e.pathPoints ≠ []) (hcut : exceedsCutoff e.startLoc e.endLoc = true)
    (hip : e.isPath = false) :
    processEntry now e c
      = ([⟨c, e.startLoc.1, e.startLoc.2, e.startTime.getD now⟩,
          ⟨c + 1, e.endLoc.1, e.endLoc.2, e.endTime.getD (e.startTime.getD now)⟩],
         [], c + 2) := by
  unfold processEntry
  rw [if_neg hp]
  simp [hcut, hip]

theorem processEntry_move_far (now : ℤ) (e : TimelineEntry) (c : ℕ)
    (hp : ¬e.pathPoints ≠ []) (hcut : exceedsCutoff e.startLoc e.endLoc = true)
    (hip : e.isPath = true) :
    processEntry now e c
      = ([⟨c, e.startLoc.1, e.startLoc.2, e.startTime.getD now⟩,
          ⟨c + 1, e.endLoc.1, e.endLoc.2, e.endTime.getD (e.startTime.getD now)⟩],
         [⟨c + 4, ⟨c + 2, e.startLoc.1, e.startLoc.2, e.startTime.getD now⟩,
           ⟨c + 3, e.endLoc.1, e.endLoc.2, e.endTime.getD (e.startTime.getD now)⟩⟩],
         c + 5) := by
  unfold processEntry
  rw [if_neg hp]
  simp [hcut, hip]

theorem processEntry_spec (now : ℤ) (e : TimelineEntry) (c : ℕ) :
    c ≤ (processEntry now e c).2.2
    ∧ (∀ pa ∈ (processEntry now e c).2.1,
        c ≤ pa.pathid ∧ pa.pathid < (processEntry now e c).2.2)
    ∧ (processEntry now e c).2.1.Pairwise (fun x y => x.pathid < y.pathid)
    ∧ (processEntry now e c).2.1.map stripPathLoc = specEntryPaths e := by
  by_cases hp : e.pathPoints ≠ []
  · rw [processEntry_dense now e c hp]
    try dsimp only
    have hpt := emitDensePoints_ctr (e.startTime.getD now) e.pathPoints c
    obtain ⟨h1, h2, h3, h4⟩ := emitDensePaths_spec (e.startTime.getD now) e.pathPoints
      (emitDensePoints (e.startTime.getD now) e.pathPoints c).2
    refine ⟨by omega, fun pa hpa => by have := h2 pa hpa; omega, h3, ?_⟩
    rw [h4]
    unfold specEntryPaths
    rw [if_pos hp]
  · have hsp : specEntryPaths e
        = if e.isPath then [(e.startLoc, e.endLoc)] else [] := by
      unfold specEntryPaths
      rw [if_neg hp]
    cases hcut : exceedsCutoff e.startLoc e.endLoc <;> cases hip : e.isPath
    · rw [processEntry_visit_near now e c hp hcut hip, hsp, if_neg (by simp [hip])]
      simp
    · rw [processEntry_move_near now e c hp hcut hip, hsp, if_pos (by simp [hip])]
      try dsimp only
      refine ⟨by omega, ?_, List.pairwise_singleton _ _, ?_⟩
      · intro pa hpa
        rw [List.mem_singleton] at hpa
        subst hpa
        try dsimp only
        omega
      · simp [stripPathLoc, stripLoc]
    · rw [processEntry_visit_far now e c hp hcut hip, hsp, if_neg (by simp [hip])]
      simp
    · rw [processEntry_move_far now e c hp hcut hip, hsp, if_pos (by simp [hip])]
      try dsimp only
      refine ⟨by omega, ?_, List.pairwise_singleton _ _, ?_⟩
      · intro pa hpa
        rw [List.mem_singleton] at hpa
        subst hpa
        try dsimp only
        omega
      · simp [stripPathLoc, stripLoc]

theorem buildLoop_spec (now : ℤ) :
    ∀ (es : List TimelineEntry) (prev : Option TimelineEntry) (c : ℕ),
      c ≤ (buildLoop now es prev c).2.2
      ∧ (∀ pa ∈ (buildLoop now es prev c).2.1,
          c ≤ pa.pathid ∧ pa.pathid < (buildLoop now es prev c).2.2)
      ∧ (buildLoop now es prev c).2.1.Pairwise (fun x y => x.pathid < y.pathid)
      ∧ (buildLoop now es prev c).2.1.map stripPathLoc
          = specPathsWithGaps (prev.map TimelineEntry.endLoc) es := by
  intro es
  induction es with
  | nil => intro prev c; cases prev <;> simp [buildLoop, specPathsWithGaps]
  | cons e rest ih =>
    intro prev c
    obtain ⟨p1, p2, p3, p4⟩ := processEntry_spec now e c
    cases prev with
    | none =>
      obtain ⟨r1, r2, r3, r4⟩ := ih (some e) (processEntry now e c).2.2
      simp only [buildLoop]
      try dsimp only
      simp only [List.append_nil, List.nil_append]
      refine ⟨by omega, ?_, ?_, ?_⟩
      · intro pa hpa
        rcases List.mem_append.mp hpa with h | h
        · have := p2 pa h
          omega
        · have := r2 pa h
          omega
      · rw [List.pairwise_append]
        refine ⟨p3, r3, fun a ha b hb => ?_⟩
        have h1 := p2 a ha
        have h2 := r2 b hb
        omega
      · rw [List.map_append, p4, r4]
        simp [specPathsWithGaps]
    | some pe =>
      obtain ⟨r1, r2, r3, r4⟩ := ih (some e) ((processEntry now e c).2.2 + 3)
      simp only [buildLoop]
      try dsimp only
      rw [List.append_assoc]
      refine ⟨by omega, ?_, ?_, ?_⟩
      · intro pa hpa
        rcases List.mem_append.mp hpa with h | h
        · have := p2 pa h
          omega
        · rcases List.mem_append.mp h with h' | h'
          · rw [List.mem_singleton] at h'
            subst h'
            try dsimp only
            omega
          · have := r2 pa h'
            omega
      · rw [List.pairwise_append]
        refine ⟨p3, ?_, ?_⟩
        · rw [List.pairwise_append]
          refine ⟨List.pairwise_singleton _ _, r3, fun a ha b hb => ?_⟩
          rw [List.mem_singleton] at ha
          subst ha
          have := r2 b hb
          try dsimp only
          omega
        · intro a ha b hb
          have h1 := p2 a ha
          rcases List.mem_append.mp hb with h' | h'
          · rw [List.mem_singleton] at h'
            subst h'
            try dsimp only
            omega
          · have := r2 b h'
            omega
      · rw [List.map_append, List.map_append, p4, r4]
        simp [specPathsWithGaps, stripPathLoc, stripLoc]

/-! ## Claim C7 -/

/-- Claim C7, counterexample: an entry whose end location differs from its
start by 0.00005 degrees of latitude (under the 0.0001 cutoff the source
applies, comment "Roughly 11 meters") yields only ONE emitted point even
though the coordinates differ, contradicting the claim that the end point
is emitted exactly when the coordinates differ with no distance cutoff. -/
theorem c7_counterexample :
    (buildTimelineData [nearEntry] 0).points.length = 1
      ∧ nearEntry.startLoc ≠ nearEntry.endLoc := by
  have hcut : exceedsCutoff nearEntry.startLoc nearEntry.endLoc = false := by
    simp only [exceedsCutoff, nearEntry, decide_eq_false_iff_not]
    norm_num
  constructor
  · have hpe := processEntry_visit_near 0 nearEntry 0 (by simp [nearEntry]) hcut rfl
    have hb : buildTimelineData [nearEntry] 0
        = mkGroup ((processEntry 0 nearEntry 0).1 ++ [])
            (((processEntry 0 nearEntry 0).2.1 ++ []) ++ []) := rfl
    simp only [List.append_nil] at hb
    rw [hb, hpe, mkGroup_points _ _ (by simp)]
    rfl
  · intro h
    have h2 := congrArg Prod.fst h
    simp only [nearEntry] at h2
    norm_num at h2

/-- Claim C7 (amended): for an entry with no dense path, the parser emits
the start location as a point, emits the end location as a second point
exactly when the degree-space distance between end and start EXCEEDS the
0.0001 cutoff (not merely when the coordinates differ), and for a
movement-type entry additionally emits exactly one edge from start to
end. -/
theorem c7_end_point_emission (e : TimelineEntry) (now : ℤ)
    (hp : e.pathPoints = []) : C7Conclusion e now := by
  unfold C7Conclusion
  have hp' : ¬e.pathPoints ≠ [] := fun h => h hp
  have hb : buildTimelineData [e] now
      = mkGroup ((processEntry now e 0).1 ++ [])
          (((processEntry now e 0).2.1 ++ []) ++ []) := rfl
  simp only [List.append_nil] at hb
  rw [hb]
  cases hcut : exceedsCutoff e.startLoc e.endLoc <;> cases hip : e.isPath
  · rw [processEntry_visit_near now e 0 hp' hcut hip]
    rw [mkGroup_points _ _ (by simp), mkGroup_paths _ _ (by simp)]
    simp [stripLoc, hcut, hip]
  · rw [processEntry_move_near now e 0 hp' hcut hip]
    rw [mkGroup_points _ _ (by simp), mkGroup_paths _ _ (by simp)]
    simp [stripLoc, stripPathLoc, hcut, hip]
  · rw [processEntry_visit_far now e 0 hp' hcut hip]
    rw [mkGroup_points _ _ (by simp), mkGroup_paths _ _ (by simp)]
    simp [stripLoc, hcut, hip]
  · rw [processEntry_move_far now e 0 hp' hcut hip]
    rw [mkGroup_points _ _ (by simp), mkGroup_paths _ _ (by simp)]
    simp [stripLoc, stripPathLoc, hcut, hip]

/-- Witness for claim C7 at a concrete movement entry over the cutoff. -/
theorem c7_end_point_emission_witness :
    (⟨some 3, some 4, (1, 2), (5, 6), true, []⟩ : TimelineEntry).pathPoints = []
      ∧ C7Conclusion ⟨some 3, some 4, (1, 2), (5, 6), true, []⟩ 0 :=
  ⟨rfl, c7_end_point_emission ⟨some 3, some 4, (1, 2), (5, 6), true, []⟩ 0 rfl⟩

/-! ## Claim C8 -/

/-- Claim C8: the full edge output of buildTimelineData decomposes as, per
entry, its own dense-path or activity edges followed by exactly one
gap-edge connecting the previous entry's end location to the current
entry's start location (emitted for every consecutive pair, with no
distance cutoff; in particular for every pair whose locations differ). -/
theorem c8_gap_edge_synthesis (es : List TimelineEntry) (now : ℤ) :
    (buildTimelineData es now).paths.map stripPathLoc = specPathsWithGaps none es := by
  obtain ⟨h1, h2, h3, h4⟩ := buildLoop_spec now es none 0
  have hnodup : (buildLoop now es none 0).2.1.Nodup := by
    refine List.Pairwise.imp ?_ h3
    intro a b hab
    intro he
    rw [he] at hab
    exact lt_irrefl _ hab
  unfold buildTimelineData
  rw [mkGroup_paths _ _ hnodup]
  exact h4

/-! ## Serialization: characterizing the two toJson collection passes -/

theorem foldl_flatMap {α β γ : Type} (g : γ → List α) (f : β → α → β) (cs : List γ) :
    ∀ b : β, (cs.flatMap g).foldl f b = cs.foldl (fun b c => (g c).foldl f b) b := by
  induction cs with
  | nil => intro b; rfl
  | cons c cs ih =>
    intro b
    rw [List.flatMap_cons, List.foldl_append, List.foldl_cons, ih]

theorem collectPoints_eq (m : Map) :
    collectPoints m
      = ((List.range gridSize).flatMap fun c => (m.grid c).points).foldl addUnique [] := by
  unfold collectPoints
  rw [foldl_flatMap]

theorem collectAll_eq (m : Map) :
    collectAll m
      = ((List.range gridSize).flatMap fun c => (m.grid c).paths).foldl collectStep
          (collectPoints m, []) := by
  unfold collectAll
  rw [foldl_flatMap]

theorem mem_collectPoints (m : Map) (p : TimelinePoint) :
    p ∈ collectPoints m ↔ ∃ c, c < gridSize ∧ p ∈ (m.grid c).points := by
  rw [collectPoints_eq, mem_foldl_addUnique]
  simp [List.mem_flatMap, List.mem_range]

theorem nodup_collectPoints (m : Map) : (collectPoints m).Nodup := by
  rw [collectPoints_eq]
  exact nodup_foldl_addUnique _ _ (by simp)

theorem collectStep_snd (st : List TimelinePoint × List TimelinePath) (pa q : TimelinePath) :
    q ∈ (collectStep st pa).2 ↔ q ∈ st.2 ∨ q = pa := by
  unfold collectStep
  by_cases h : pa ∈ st.2
  · rw [if_pos h]
    constructor
    · exact Or.inl
    · rintro (hq | rfl)
      · exact hq
      · exact h
  · rw [if_neg h]
    simp

theorem mem_foldl_collectStep_snd (l : List TimelinePath) :
    ∀ (st : List TimelinePoint × List TimelinePath) (q : TimelinePath),
      q ∈ (l.foldl collectStep st).2 ↔ q ∈ st.2 ∨ q ∈ l := by
  induction l with
  | nil => simp
  | cons pa l ih =>
    intro st q
    rw [List.foldl_cons, ih, collectStep_snd]
    simp only [List.mem_cons]
    tauto

theorem foldl_collectStep_fst_mono (l : List TimelinePath) :
    ∀ (st : List TimelinePoint × List TimelinePath) (p : TimelinePoint),
      p ∈ st.1 → p ∈ (l.foldl collectStep st).1 := by
  induction l with
  | nil => intro st p hp; simpa using hp
  | cons pa l ih =>
    intro st p hp
    rw [List.foldl_cons]
    refine ih _ p ?_
    unfold collectStep
    by_cases h : pa ∈ st.2
    · rwa [if_pos h]
    · rw [if_neg h]
      simp only [mem_addUnique]
      exact Or.inl (Or.inl hp)

theorem foldl_collectStep_endpoints (l : List TimelinePath) :
    ∀ (st : List TimelinePoint × List TimelinePath),
      (∀ pa ∈ st.2, pa.a ∈ st.1 ∧ pa.b ∈ st.1) →
      ∀ pa ∈ (l.foldl collectStep st).2,
        pa.a ∈ (l.foldl collectStep st).1 ∧ pa.b ∈ (l.foldl collectStep st).1 := by
  induction l with
  | nil => intro st h; simpa using h
  | cons pa0 l ih =>
    intro st hst
    rw [List.foldl_cons]
    refine ih _ ?_
    intro pa hpa
    unfold collectStep at hpa ⊢
    by_cases h : pa0 ∈ st.2
    · rw [if_pos h] at hpa ⊢
      exact hst pa hpa
    · rw [if_neg h] at hpa ⊢
      simp only [List.mem_append, List.mem_singleton] at hpa
      simp only [mem_addUnique]
      rcases hpa with hpa | rfl
      · have := hst pa hpa
        tauto
      · tauto

theorem foldl_collectStep_fst_src (l : List TimelinePath) :
    ∀ (st : List TimelinePoint × List TimelinePath) (p : TimelinePoint),
      p ∈ (l.foldl collectStep st).1 →
      p ∈ st.1 ∨ ∃ pa ∈ l, p = pa.a ∨ p = pa.b := by
  induction l with
  | nil => intro st p hp; exact Or.inl (by simpa using hp)
  | cons pa0 l ih =>
    intro st p hp
    rw [List.foldl_cons] at hp
    rcases ih _ p hp with h | ⟨pa, hpa, hp'⟩
    · unfold collectStep at h
      by_cases hb : pa0 ∈ st.2
      · rw [if_pos hb] at h
        exact Or.inl h
      · rw [if_neg hb] at h
        simp only [mem_addUnique] at h
        rcases h with (h | rfl) | rfl
        · exact Or.inl h
        · exact Or.inr ⟨pa0, List.mem_cons_self _ _, Or.inl rfl⟩
        · exact Or.inr ⟨pa0, List.mem_cons_self _ _, Or.inr rfl⟩
    · exact Or.inr ⟨pa, List.mem_cons_of_mem _ hpa, hp'⟩

theorem foldl_collectStep_fst_nodup (l : List TimelinePath) :
    ∀ (st : List TimelinePoint × List TimelinePath),
      st.1.Nodup → (l.foldl collectStep st).1.Nodup := by
  induction l with
  | nil => intro st h; simpa using h
  | cons pa l ih =>
    intro st hst
    rw [List.foldl_cons]
    refine ih _ ?_
    unfold collectStep
    by_cases h : pa ∈ st.2
    · rwa [if_pos h]
    · rw [if_neg h]
      exact nodup_addUnique (nodup_addUnique hst)

theorem foldl_collectStep_snd_nodup (l : List TimelinePath) :
    ∀ (st : List TimelinePoint × List TimelinePath),
      st.2.Nodup → (l.foldl collectStep st).2.Nodup := by
  induction l with
  | nil => intro st h; simpa using h
  | cons pa l ih =>
    intro st hst
    rw [List.foldl_cons]
    refine ih _ ?_
    unfold collectStep
    by_cases h : pa ∈ st.2
    · rwa [if_pos h]
    · rw [if_neg h]
      simp [List.nodup_append, hst, h]

theorem mem_collectAll_snd (m : Map) (pa : TimelinePath) :
    pa ∈ (collectAll m).2 ↔ ∃ c, c < gridSize ∧ pa ∈ (m.grid c).paths := by
  rw [collectAll_eq, mem_foldl_collectStep_snd]
  simp [List.mem_flatMap, List.mem_range]

set_option maxRecDepth 10000 in
theorem collectPoints_sub (m : Map) :
    ∀ p ∈ collectPoints m, p ∈ (collectAll m).1 := by
  intro p hp
  rw [collectAll_eq]
  exact foldl_collectStep_fst_mono _ _ p hp

theorem collectAll_endpoints_mem (m : Map) :
    ∀ pa ∈ (collectAll m).2, pa.a ∈ (collectAll m).1 ∧ pa.b ∈ (collectAll m).1 := by
  rw [collectAll_eq]
  exact foldl_collectStep_endpoints _ _ (by simp)

set_option maxRecDepth 10000 in
theorem mem_collectAll_fst (m : Map) :
    ∀ p ∈ (collectAll m).1,
      p ∈ collectPoints m
        ∨ ∃ pa, (∃ c, c < gridSize ∧ pa ∈ (m.grid c).paths) ∧ (p = pa.a ∨ p = pa.b) := by
  intro p hp
  rw [collectAll_eq] at hp
  rcases foldl_collectStep_fst_src _ _ p hp with h | ⟨pa, hpa, hp'⟩
  · exact Or.inl h
  · refine Or.inr ⟨pa, ?_, hp'⟩
    simpa [List.mem_flatMap, List.mem_range] using hpa

set_option maxRecDepth 10000 in
theorem nodup_collectAll_fst (m : Map) : (collectAll m).1.Nodup := by
  rw [collectAll_eq]
  exact foldl_collectStep_fst_nodup _ _ (nodup_collectPoints m)

theorem nodup_collectAll_snd (m : Map) : (collectAll m).2.Nodup := by
  rw [collectAll_eq]
  exact foldl_collectStep_snd_nodup _ _ (by simp)

/-! ## Consequences of the grid invariant for the collected tables -/

theorem goodMap_cellPts_P {m : Map} (hm : GoodMap m) {c : ℕ} {p : TimelinePoint}
    (hp : p ∈ (m.grid c).points) : p ∈ (collectAll m).1 := by
  refine collectPoints_sub m p ((mem_collectPoints m p).mpr ⟨c, ?_, hp⟩)
  have hc := (hm.cellPt c p hp).1
  have := getSegmentIndex_lt p.lat p.lon
  show c < gridSize
  rw [hc]
  exact this

theorem goodMap_cellPas_Q {m : Map} (hm : GoodMap m) {c : ℕ} {pa : TimelinePath}
    (hpa : pa ∈ (m.grid c).paths) : pa ∈ (collectAll m).2 := by
  refine (mem_collectAll_snd m pa).mpr ⟨c, ?_, hpa⟩
  rcases (hm.cellPa c pa hpa).1 with hc | hc
  · have := getSegmentIndex_lt pa.a.lat pa.a.lon
    show c < gridSize
    rw [hc]
    exact this
  · have := getSegmentIndex_lt pa.b.lat pa.b.lon
    show c < gridSize
    rw [hc]
    exact this

theorem goodMap_filePts_P {m : Map} (hm : GoodMap m) {f : TimelineFile}
    (hf : f ∈ m.files) {p : TimelinePoint} (hp : p ∈ f.data.points) :
    p ∈ (collectAll m).1 :=
  goodMap_cellPts_P hm (hm.inCellPt f hf p hp)

theorem goodMap_filePas_Q {m : Map} (hm : GoodMap m) {f : TimelineFile}
    (hf : f ∈ m.files) {pa : TimelinePath} (hpa : pa ∈ f.data.paths) :
    pa ∈ (collectAll m).2 :=
  goodMap_cellPas_Q hm (hm.inCellPa f hf pa hpa).1

theorem goodMap_Q_pathOk {m : Map} (hm : GoodMap m) :
    ∀ pa ∈ (collectAll m).2, PathOk pa := by
  intro pa hpa
  obtain ⟨c, _, hc⟩ := (mem_collectAll_snd m pa).mp hpa
  obtain ⟨f, hf, hpaf⟩ := (hm.cellPa c pa hc).2
  exact (hm.filesOk f hf).2.2.2 pa hpaf

theorem goodMap_P_ptOk {m : Map} (hm : GoodMap m) :
    ∀ p ∈ (collectAll m).1, PtOk p := by
  intro p hp
  rcases mem_collectAll_fst m p hp with h | ⟨pa, ⟨c, _, hc⟩, hend⟩
  · obtain ⟨c, _, hcp⟩ := (mem_collectPoints m p).mp h
    obtain ⟨f, hf, hpf⟩ := (hm.cellPt c p hcp).2
    exact (hm.filesOk f hf).2.2.1 p hpf
  · obtain ⟨f, hf, hpaf⟩ := (hm.cellPa c pa hc).2
    have hok := (hm.filesOk f hf).2.2.2 pa hpaf
    rcases hend with rfl | rfl
    · exact hok.1
    · exact hok.2

theorem goodMap_grid_empty {m : Map} (hm : GoodMap m) {c : ℕ} (hc : gridSize ≤ c) :
    m.grid c = TimelineGroup.createEmpty := by
  have hpts : (m.grid c).points = [] := by
    rw [List.eq_nil_iff_forall_not_mem]
    intro p hp
    have h1 := (hm.cellPt c p hp).1
    have h2 : cellOfPt p < 648 := getSegmentIndex_lt p.lat p.lon
    have h3 : gridSize = 648 := rfl
    omega
  have hpas : (m.grid c).paths = [] := by
    rw [List.eq_nil_iff_forall_not_mem]
    intro pa hpa
    have h2a : cellOfPt pa.a < 648 := getSegmentIndex_lt pa.a.lat pa.a.lon
    have h2b : cellOfPt pa.b < 648 := getSegmentIndex_lt pa.b.lat pa.b.lon
    have h3 : gridSize = 648 := rfl
    rcases (hm.cellPa c pa hpa).1 with h1 | h1 <;> omega
  cases hg : m.grid c with
  | mk ps pas =>
    rw [hg] at hpts hpas
    simp only at hpts hpas
    rw [hpts, hpas]
    rfl

/-! ## The serialization renaming: basic properties -/

theorem cellOfPt_rhoPt (P : List TimelinePoint) (p : TimelinePoint) :
    cellOfPt (rhoPt P p) = cellOfPt p := rfl

theorem stripPt_rhoPt (P : List TimelinePoint) (p : TimelinePoint) :
    stripPt (rhoPt P p) = stripPt p := rfl

theorem qvPointIn_rhoPt (b : MapBounds) (P : List TimelinePoint) (p : TimelinePoint) :
    qvPointIn b (rhoPt P p) = qvPointIn b p := rfl

theorem ptOk_rhoPt (P : List TimelinePoint) (p : TimelinePoint) :
    PtOk (rhoPt P p) ↔ PtOk p := Iff.rfl

theorem rhoPt_inj {P : List TimelinePoint} {p q : TimelinePoint}
    (hp : p ∈ P) (hq : q ∈ P) (h : rhoPt P p = rhoPt P q) : p = q := by
  obtain ⟨i, hi⟩ := idxOf_isSome_of_mem P p hp
  obtain ⟨j, hj⟩ := idxOf_isSome_of_mem P q hq
  have hpid : (idxOf P p).getD 0 = (idxOf P q).getD 0 := congrArg TimelinePoint.pid h
  rw [hi, hj] at hpid
  simp only [Option.getD_some] at hpid
  subst hpid
  exact idxOf_inj hi hj

theorem rhoPa_inj {P : List TimelinePoint} {Q : List TimelinePath} {pa qa : TimelinePath}
    (hpa : pa ∈ Q) (hqa : qa ∈ Q) (h : rhoPa P Q pa = rhoPa P Q qa) : pa = qa := by
  obtain ⟨i, hi⟩ := idxOf_isSome_of_mem Q pa hpa
  obtain ⟨j, hj⟩ := idxOf_isSome_of_mem Q qa hqa
  have hpid : (idxOf Q pa).getD 0 = (idxOf Q qa).getD 0 := congrArg TimelinePath.pathid h
  rw [hi, hj] at hpid
  simp only [Option.getD_some] at hpid
  subst hpid
  exact idxOf_inj hi hj

/-! ## Generic Option-monad list lemmas -/

theorem mapM_map_comp {α β γ : Type} (g : α → β) (F : β → Option γ) (l : List α) :
    (l.map g).mapM F = l.mapM fun x => F (g x) := by
  induction l with
  | nil => rfl
  | cons a l ih => rw [List.map_cons, List.mapM_cons, List.mapM_cons, ih]

theorem mapM_eq_some_map {α β : Type} (F : α → Option β) (g : α → β) :
    ∀ l : List α, (∀ x ∈ l, F x = some (g x)) → l.mapM F = some (l.map g) := by
  intro l
  induction l with
  | nil => intro _; rfl
  | cons a l ih =>
    intro h
    rw [List.mapM_cons, h a (List.mem_cons_self a l),
      ih fun x hx => h x (List.mem_cons_of_mem a hx)]
    rfl

/-! ## Index tables: filterMap over idxOf, and lookups into renamed tables -/

theorem filterMap_idxOf_eq_map {α : Type} [DecidableEq α] (P : List α) :
    ∀ l : List α, (∀ x ∈ l, x ∈ P) →
      l.filterMap (idxOf P) = l.map fun x => (idxOf P x).getD 0 := by
  intro l
  induction l with
  | nil => intro _; rfl
  | cons a l ih =>
    intro h
    obtain ⟨i, hi⟩ := idxOf_isSome_of_mem P a (h a (List.mem_cons_self a l))
    rw [List.filterMap_cons, List.map_cons, hi,
      ih fun x hx => h x (List.mem_cons_of_mem a hx)]
    simp

theorem get_map_rho {α β : Type} [DecidableEq α] (P : List α) (r : α → β) {x : α} {i : ℕ}
    (h : idxOf P x = some i) : (P.map r).get? i = some (r x) := by
  have hx := idxOf_spec P x i h
  rw [List.get?_map, hx]
  rfl

theorem mapM_idx_get {α β : Type} [DecidableEq α] (P : List α) (r : α → β) :
    ∀ l : List α, (∀ x ∈ l, x ∈ P) →
      (l.filterMap (idxOf P)).mapM (P.map r).get? = some (l.map r) := by
  intro l h
  rw [filterMap_idxOf_eq_map P l h, mapM_map_comp]
  refine mapM_eq_some_map _ _ l fun x hx => ?_
  obtain ⟨i, hi⟩ := idxOf_isSome_of_mem P x (h x hx)
  rw [hi, Option.getD_some]
  exact get_map_rho P r hi

/-! ## Deserializing the point table -/

theorem mapM_deser_enumFrom (l : List TimelinePoint) :
    ∀ k : ℕ, (∀ p ∈ l, PtOk p) →
      ((l.map serializePoint).enumFrom k).mapM (fun ip => deserializePoint ip.1 ip.2)
        = some ((l.enumFrom k).map fun ip =>
            (⟨ip.1, ip.2.lat, ip.2.lon, ip.2.timestamp⟩ : TimelinePoint)) := by
  induction l with
  | nil => intro k _; rfl
  | cons p l ih =>
    intro k h
    have hp : PtOk p := h p (List.mem_cons_self p l)
    rw [List.map_cons]
    show ((k, serializePoint p) :: ((l.map serializePoint).enumFrom (k + 1))).mapM _ = _
    rw [List.mapM_cons]
    have hdp : deserializePoint k (serializePoint p)
        = some ⟨k, p.lat, p.lon, p.timestamp⟩ := by
      unfold deserializePoint serializePoint
      rw [if_pos]
      exact hp
    show (deserializePoint k (serializePoint p) >>= fun b =>
      ((l.map serializePoint).enumFrom (k + 1)).mapM (fun ip => deserializePoint ip.1 ip.2)
        >>= fun bs => pure (b :: bs)) = _
    rw [hdp, ih (k + 1) fun q hq => h q (List.mem_cons_of_mem p hq)]
    rfl

theorem enum_map_rho (P : List TimelinePoint) (hP : P.Nodup) :
    (P.enum.map fun ip => (⟨ip.1, ip.2.lat, ip.2.lon, ip.2.timestamp⟩ : TimelinePoint))
      = P.map (rhoPt P) := by
  apply List.ext_getElem
  · simp
  · intro i h1 h2
    have hi : i < P.length := by simpa using h2
    simp only [List.getElem_map, List.getElem_enum]
    have hget : P.get? i = some P[i] := by
      rw [List.get?_eq_getElem?, List.getElem?_eq_getElem hi]
    have hidx : idxOf P P[i] = some i := idxOf_nodup_get P hP i P[i] hget
    unfold rhoPt
    rw [hidx]
    rfl

set_option maxRecDepth 10000 in
theorem points_mapM_eq {m : Map} (hm : GoodMap m) :
    (m.toJson.points.enum.mapM fun ip => deserializePoint ip.1 ip.2)
      = some ((collectAll m).1.map (rhoPt (collectAll m).1)) := by
  have h1 : m.toJson.points = (collectAll m).1.map serializePoint := rfl
  rw [h1]
  show ((((collectAll m).1.map serializePoint).enumFrom 0).mapM
    fun ip => deserializePoint ip.1 ip.2) = _
  rw [mapM_deser_enumFrom _ 0 (goodMap_P_ptOk hm)]
  show some (((collectAll m).1.enum.map fun ip =>
    (⟨ip.1, ip.2.lat, ip.2.lon, ip.2.timestamp⟩ : TimelinePoint))) = _
  rw [enum_map_rho _ (nodup_collectAll_fst m)]

/-! ## Deserializing the path table -/

theorem filterMap_pairIdx_eq (P : List TimelinePoint) :
    ∀ Q : List TimelinePath, (∀ pa ∈ Q, pa.a ∈ P ∧ pa.b ∈ P) →
      (Q.filterMap fun pa =>
          match idxOf P pa.a, idxOf P pa.b with
          | some i, some j => some (⟨i, j⟩ : SPath)
          | _, _ => none)
        = Q.map fun pa => (⟨(idxOf P pa.a).getD 0, (idxOf P pa.b).getD 0⟩ : SPath) := by
  intro Q
  induction Q with
  | nil => intro _; rfl
  | cons pa Q ih =>
    intro h
    obtain ⟨ia, hia⟩ := idxOf_isSome_of_mem P pa.a (h pa (List.mem_cons_self pa Q)).1
    obtain ⟨ib, hib⟩ := idxOf_isSome_of_mem P pa.b (h pa (List.mem_cons_self pa Q)).2
    rw [List.filterMap_cons, List.map_cons, hia, hib,
      ih fun q hq => h q (List.mem_cons_of_mem pa hq)]
    simp

theorem deserializePaths_aux (P : List TimelinePoint) (Q : List TimelinePath) (hQ : Q.Nodup)
    (hend : ∀ pa ∈ Q, pa.a ∈ P ∧ pa.b ∈ P) :
    ∀ (l2 l1 : List TimelinePath), Q = l1 ++ l2 →
      ((l2.map fun pa =>
          (⟨(idxOf P pa.a).getD 0, (idxOf P pa.b).getD 0⟩ : SPath)).foldl
        (fun acc sp =>
          match (P.map (rhoPt P)).get? sp.a, (P.map (rhoPt P)).get? sp.b with
          | some a, some b => acc ++ [⟨acc.length, a, b⟩]
          | _, _ => acc)
        (l1.map (rhoPa P Q)))
        = Q.map (rhoPa P Q) := by
  intro l2
  induction l2 with
  | nil =>
    intro l1 h
    rw [List.map_nil, List.foldl_nil, h, List.append_nil]
  | cons pa l2 ih =>
    intro l1 hQeq
    have hpa : pa ∈ Q := by
      rw [hQeq]
      exact List.mem_append_right _ (List.mem_cons_self _ _)
    obtain ⟨ia, hia⟩ := idxOf_isSome_of_mem P pa.a (hend pa hpa).1
    obtain ⟨ib, hib⟩ := idxOf_isSome_of_mem P pa.b (hend pa hpa).2
    have hga : (P.map (rhoPt P)).get? ((idxOf P pa.a).getD 0) = some (rhoPt P pa.a) := by
      rw [hia, Option.getD_some]
      exact get_map_rho P (rhoPt P) hia
    have hgb : (P.map (rhoPt P)).get? ((idxOf P pa.b).getD 0) = some (rhoPt P pa.b) := by
      rw [hib, Option.getD_some]
      exact get_map_rho P (rhoPt P) hib
    have hidx : idxOf Q pa = some l1.length := by
      refine idxOf_nodup_get Q hQ l1.length pa ?_
      rw [hQeq, List.get?_append_right (le_refl l1.length)]
      simp
    have helem : (⟨(l1.map (rhoPa P Q)).length, rhoPt P pa.a, rhoPt P pa.b⟩ : TimelinePath)
        = rhoPa P Q pa := by
      unfold rhoPa
      rw [hidx, List.length_map]
      rfl
    have hstep : (match (P.map (rhoPt P)).get? ((idxOf P pa.a).getD 0),
          (P.map (rhoPt P)).get? ((idxOf P pa.b).getD 0) with
        | some a, some b => l1.map (rhoPa P Q)
            ++ [(⟨(l1.map (rhoPa P Q)).length, a, b⟩ : TimelinePath)]
        | _, _ => l1.map (rhoPa P Q))
        = l1.map (rhoPa P Q) ++ [rhoPa P Q pa] := by
      rw [hga, hgb, ← helem]
    have happ : l1.map (rhoPa P Q) ++ [rhoPa P Q pa] = (l1 ++ [pa]).map (rhoPa P Q) := by
      rw [List.map_append]
      rfl
    rw [List.map_cons, List.foldl_cons]
    dsimp only
    rw [hstep, happ]
    refine ih (l1 ++ [pa]) ?_
    rw [hQeq, List.append_assoc]
    rfl

set_option maxRecDepth 10000 in
theorem deserializePaths_eq (P : List TimelinePoint) (Q : List TimelinePath) (hQ : Q.Nodup)
    (hend : ∀ pa ∈ Q, pa.a ∈ P ∧ pa.b ∈ P) :
    deserializePaths (P.map (rhoPt P))
        (Q.map fun pa => (⟨(idxOf P pa.a).getD 0, (idxOf P pa.b).getD 0⟩ : SPath))
      = Q.map (rhoPa P Q) := by
  unfold deserializePaths
  have h := deserializePaths_aux P Q hQ hend Q [] (by simp)
  simpa using h

set_option maxRecDepth 10000 in
theorem paths_deser_eq (m : Map) :
    deserializePaths ((collectAll m).1.map (rhoPt (collectAll m).1)) m.toJson.paths
      = (collectAll m).2.map (rhoPa (collectAll m).1 (collectAll m).2) := by
  have h2 : m.toJson.paths
      = (collectAll m).2.filterMap fun pa =>
          match idxOf (collectAll m).1 pa.a, idxOf (collectAll m).1 pa.b with
          | some i, some j => some (⟨i, j⟩ : SPath)
          | _, _ => none := rfl
  rw [h2, filterMap_pairIdx_eq _ _ (collectAll_endpoints_mem m),
    deserializePaths_eq _ _ (nodup_collectAll_snd m) (collectAll_endpoints_mem m)]


theorem fromJsonAux_char (fast : Bool) (data : SerializedMap) (pts : List TimelinePoint)
    (hp : (data.points.enum.mapM fun ip => deserializePoint ip.1 ip.2) = some pts)
    (fls : List TimelineFile)
    (hf : (data.files.mapM fun sf => do
        let fpts ← sf.pointIndices.mapM pts.get?
        let fpas ← sf.pathIndices.mapM (deserializePaths pts data.paths).get?
        pure (⟨sf.id, sf.name, mkGroup fpts fpas⟩ : TimelineFile)) = some fls) :
    Map.fromJsonAux fast data
      = if fast then do
          let grid ← data.segments.foldlM
            (fun g sseg => do
              if sseg.index < gridSize then
                let spts ← sseg.pointIndices.mapM pts.get?
                let spas ← sseg.pathIndices.mapM (deserializePaths pts data.paths).get?
                pure (Function.update g sseg.index
                  (((g sseg.index).addPoints spts).addPaths spas))
              else none)
            (fun _ => TimelineGroup.createEmpty)
          pure (⟨grid, fls⟩ : Map)
        else some ⟨fls.foldl (fun g f => indexGroup g f.data)
            (fun _ => TimelineGroup.createEmpty), fls⟩ := by
  unfold Map.fromJsonAux
  rw [hp]
  simp only [Option.bind_eq_bind, Option.some_bind] at hf ⊢
  rw [hf]
  simp only [Option.bind_eq_bind, Option.some_bind]
  rfl


set_option maxRecDepth 10000 in
theorem files_mapM_eq {m : Map} (hm : GoodMap m) :
    (m.toJson.files.mapM fun sf => do
        let fpts ← sf.pointIndices.mapM
          ((collectAll m).1.map (rhoPt (collectAll m).1)).get?
        let fpas ← sf.pathIndices.mapM
          (deserializePaths ((collectAll m).1.map (rhoPt (collectAll m).1))
            m.toJson.paths).get?
        pure (⟨sf.id, sf.name, mkGroup fpts fpas⟩ : TimelineFile))
      = some (renameMap m).files := by
  simp only [paths_deser_eq m, Option.bind_eq_bind]
  have hfl : m.toJson.files = m.files.map fun f =>
      (⟨f.id, f.name, f.data.points.filterMap (idxOf (collectAll m).1),
        f.data.paths.filterMap (idxOf (collectAll m).2)⟩ : SFile) := rfl
  rw [hfl, mapM_map_comp]
  have hmain := mapM_eq_some_map
    (fun f : TimelineFile =>
      ((f.data.points.filterMap (idxOf (collectAll m).1)).mapM
          ((collectAll m).1.map (rhoPt (collectAll m).1)).get?).bind
        fun fpts =>
          ((f.data.paths.filterMap (idxOf (collectAll m).2)).mapM
              ((collectAll m).2.map (rhoPa (collectAll m).1 (collectAll m).2)).get?).bind
            fun fpas => pure (⟨f.id, f.name, mkGroup fpts fpas⟩ : TimelineFile))
    (fun f : TimelineFile =>
      (⟨f.id, f.name,
        ⟨f.data.points.map (rhoPt (collectAll m).1),
         f.data.paths.map (rhoPa (collectAll m).1 (collectAll m).2)⟩⟩ : TimelineFile))
    m.files ?hpt
  case hpt =>
    intro f hf
    dsimp only
    rw [mapM_idx_get _ _ _ fun p hp => goodMap_filePts_P hm hf hp]
    simp only [Option.bind_eq_bind, Option.some_bind]
    rw [mapM_idx_get _ _ _ fun pa hpa => goodMap_filePas_Q hm hf hpa]
    simp only [Option.bind_eq_bind, Option.some_bind]
    have hnd1 : (f.data.points.map (rhoPt (collectAll m).1)).Nodup := by
      refine List.Nodup.map_on ?_ (hm.filesOk f hf).1
      intro x hx y hy hxy
      exact rhoPt_inj (goodMap_filePts_P hm hf hx) (goodMap_filePts_P hm hf hy) hxy
    have hnd2 : (f.data.paths.map (rhoPa (collectAll m).1 (collectAll m).2)).Nodup := by
      refine List.Nodup.map_on ?_ (hm.filesOk f hf).2.1
      intro x hx y hy hxy
      exact rhoPa_inj (goodMap_filePas_Q hm hf hx) (goodMap_filePas_Q hm hf hy) hxy
    rw [mkGroup_eq hnd1 hnd2]
    rfl
  rw [hmain]
  rfl


theorem seg_foldlM_aux {m : Map} (hm : GoodMap m) :
    ∀ (cs : List ℕ) (g : ℕ → TimelineGroup), cs.Nodup → (∀ c ∈ cs, c < gridSize) →
      (∀ c ∈ cs, g c = TimelineGroup.createEmpty) →
      ((cs.filterMap fun c =>
          if (m.grid c).points.length > 0 ∨ (m.grid c).paths.length > 0 then
            some (⟨c, (m.grid c).points.filterMap (idxOf (collectAll m).1),
              (m.grid c).paths.filterMap (idxOf (collectAll m).2)⟩ : SSegment)
          else none).foldlM
        (fun g2 sseg =>
          if sseg.index < gridSize then
            (sseg.pointIndices.mapM
                ((collectAll m).1.map (rhoPt (collectAll m).1)).get?).bind
              fun spts =>
                (sseg.pathIndices.mapM
                    ((collectAll m).2.map
                      (rhoPa (collectAll m).1 (collectAll m).2)).get?).bind
                  fun spas =>
                    some (Function.update g2 sseg.index
                      (((g2 sseg.index).addPoints spts).addPaths spas))
          else none)
        g)
        = some fun c => if c ∈ cs then renCell m c else g c := by
  intro cs
  induction cs with
  | nil =>
    intro g _ _ _
    rw [List.filterMap_nil, List.foldlM_nil]
    rfl
  | cons c0 cs ih =>
    intro g hnd hlt hemp
    have hc0 : c0 < gridSize := hlt c0 (List.mem_cons_self _ _)
    have hg0 : g c0 = TimelineGroup.createEmpty := hemp c0 (List.mem_cons_self _ _)
    have hnotin : c0 ∉ cs := (List.nodup_cons.mp hnd).1
    by_cases hne : (m.grid c0).points.length > 0 ∨ (m.grid c0).paths.length > 0
    · have hfc0 : (fun c => if (m.grid c).points.length > 0 ∨ (m.grid c).paths.length > 0 then
          some (⟨c, (m.grid c).points.filterMap (idxOf (collectAll m).1),
            (m.grid c).paths.filterMap (idxOf (collectAll m).2)⟩ : SSegment)
        else none) c0
          = some (⟨c0, (m.grid c0).points.filterMap (idxOf (collectAll m).1),
            (m.grid c0).paths.filterMap (idxOf (collectAll m).2)⟩ : SSegment) := if_pos hne
      rw [@List.filterMap_cons_some ℕ SSegment
        (fun c => if (m.grid c).points.length > 0 ∨ (m.grid c).paths.length > 0 then
          some (⟨c, (m.grid c).points.filterMap (idxOf (collectAll m).1),
            (m.grid c).paths.filterMap (idxOf (collectAll m).2)⟩ : SSegment)
        else none) c0 cs _ hfc0, List.foldlM_cons]
      have hsub1 : ∀ p ∈ (m.grid c0).points, p ∈ (collectAll m).1 :=
        fun p hp => goodMap_cellPts_P hm hp
      have hsub2 : ∀ pa ∈ (m.grid c0).paths, pa ∈ (collectAll m).2 :=
        fun pa hpa => goodMap_cellPas_Q hm hpa
      have hnd1 : ((m.grid c0).points.map (rhoPt (collectAll m).1)).Nodup := by
        refine List.Nodup.map_on ?_ (hm.cellNodup c0).1
        intro x hx y hy hxy
        exact rhoPt_inj (hsub1 x hx) (hsub1 y hy) hxy
      have hnd2 : ((m.grid c0).paths.map
          (rhoPa (collectAll m).1 (collectAll m).2)).Nodup := by
        refine List.Nodup.map_on ?_ (hm.cellNodup c0).2
        intro x hx y hy hxy
        exact rhoPa_inj (hsub2 x hx) (hsub2 y hy) hxy
      dsimp only
      rw [if_pos hc0, mapM_idx_get _ _ _ hsub1]
      simp only [Option.bind_eq_bind, Option.some_bind]
      rw [mapM_idx_get _ _ _ hsub2]
      simp only [Option.bind_eq_bind, Option.some_bind]
      rw [hg0]
      have hcell : ((TimelineGroup.createEmpty.addPoints
            ((m.grid c0).points.map (rhoPt (collectAll m).1))).addPaths
            ((m.grid c0).paths.map (rhoPa (collectAll m).1 (collectAll m).2)))
          = renCell m c0 := mkGroup_eq hnd1 hnd2
      rw [hcell]
      rw [ih (Function.update g c0 (renCell m c0)) (List.nodup_cons.mp hnd).2
        (fun c hc => hlt c (List.mem_cons_of_mem c0 hc))
        (fun c hc => by
          rw [Function.update_apply, if_neg (fun h : c = c0 => hnotin (h ▸ hc))]
          exact hemp c (List.mem_cons_of_mem c0 hc))]
      congr 1
      funext c
      by_cases hin : c ∈ cs
      · rw [if_pos hin, if_pos (List.mem_cons_of_mem c0 hin)]
      · rw [if_neg hin, Function.update_apply]
        by_cases hc0e : c = c0
        · subst hc0e
          rw [if_pos rfl, if_pos (List.mem_cons_self _ _)]
        · rw [if_neg hc0e, if_neg (fun h => by
            rcases List.mem_cons.mp h with h1 | h1
            · exact hc0e h1
            · exact hin h1)]
    · have hfc0 : (fun c => if (m.grid c).points.length > 0 ∨ (m.grid c).paths.length > 0 then
          some (⟨c, (m.grid c).points.filterMap (idxOf (collectAll m).1),
            (m.grid c).paths.filterMap (idxOf (collectAll m).2)⟩ : SSegment)
        else none) c0 = none := if_neg hne
      rw [@List.filterMap_cons_none ℕ SSegment
        (fun c => if (m.grid c).points.length > 0 ∨ (m.grid c).paths.length > 0 then
          some (⟨c, (m.grid c).points.filterMap (idxOf (collectAll m).1),
            (m.grid c).paths.filterMap (idxOf (collectAll m).2)⟩ : SSegment)
        else none) c0 cs hfc0]
      rw [ih g (List.nodup_cons.mp hnd).2
        (fun c hc => hlt c (List.mem_cons_of_mem c0 hc))
        (fun c hc => hemp c (List.mem_cons_of_mem c0 hc))]
      have hpts0 : (m.grid c0).points = [] := by
        rcases Nat.eq_zero_or_pos (m.grid c0).points.length with h | h
        · exact List.length_eq_zero.mp h
        · exact absurd (Or.inl h) hne
      have hpas0 : (m.grid c0).paths = [] := by
        rcases Nat.eq_zero_or_pos (m.grid c0).paths.length with h | h
        · exact List.length_eq_zero.mp h
        · exact absurd (Or.inr h) hne
      congr 1
      funext c
      by_cases hin : c ∈ cs
      · rw [if_pos hin, if_pos (List.mem_cons_of_mem c0 hin)]
      · rw [if_neg hin]
        by_cases hc0e : c = c0
        · subst hc0e
          rw [if_pos (List.mem_cons_self _ _)]
          rw [hg0]
          unfold renCell
          rw [hpts0, hpas0]
          rfl
        · rw [if_neg (fun h => by
            rcases List.mem_cons.mp h with h1 | h1
            · exact hc0e h1
            · exact hin h1)]


set_option maxRecDepth 10000 in
theorem fromJsonAux_fast_eq {m : Map} (hm : GoodMap m) :
    Map.fromJsonAux true m.toJson = some (renameMap m) := by
  rw [fromJsonAux_char true m.toJson
    ((collectAll m).1.map (rhoPt (collectAll m).1)) (points_mapM_eq hm)
    (renameMap m).files (files_mapM_eq hm)]
  rw [if_pos rfl]
  simp only [paths_deser_eq m, Option.bind_eq_bind, Option.pure_def]
  have hsegs : m.toJson.segments = (List.range gridSize).filterMap fun c =>
      if (m.grid c).points.length > 0 ∨ (m.grid c).paths.length > 0 then
        some (⟨c, (m.grid c).points.filterMap (idxOf (collectAll m).1),
          (m.grid c).paths.filterMap (idxOf (collectAll m).2)⟩ : SSegment)
      else none := rfl
  rw [hsegs]
  rw [seg_foldlM_aux hm (List.range gridSize) (fun _ => TimelineGroup.createEmpty)
    (List.nodup_range gridSize) (fun c hc => List.mem_range.mp hc) (fun c hc => rfl)]
  simp only [Option.some_bind]
  have hgrid : (fun c => if c ∈ List.range gridSize then renCell m c
      else (fun _ => TimelineGroup.createEmpty) c) = (renameMap m).grid := by
    funext c
    by_cases hc : c ∈ List.range gridSize
    · rw [if_pos hc]
      rfl
    · rw [if_neg hc]
      have hge : gridSize ≤ c := Nat.le_of_not_lt (fun h => hc (List.mem_range.mpr h))
      have hempty := goodMap_grid_empty hm hge
      show TimelineGroup.createEmpty
        = ⟨(m.grid c).points.map (rhoPt (collectAll m).1),
           (m.grid c).paths.map (rhoPa (collectAll m).1 (collectAll m).2)⟩
      rw [hempty]
      rfl
  rw [hgrid]

set_option maxRecDepth 10000 in
theorem fromJsonAux_slow_eq {m : Map} (hm : GoodMap m) :
    Map.fromJsonAux false m.toJson = some (slowMap m) := by
  rw [fromJsonAux_char false m.toJson
    ((collectAll m).1.map (rhoPt (collectAll m).1)) (points_mapM_eq hm)
    (renameMap m).files (files_mapM_eq hm)]
  rw [if_neg (by simp)]
  rfl

set_option maxRecDepth 10000 in
theorem roundTrip_eq {m : Map} (hm : GoodMap m) : roundTrip m = some (renameMap m) := by
  unfold roundTrip Map.fromJson
  have hd : decide (m.toJson.latStepCounts = latStepCounts
      ∧ m.toJson.lonStepCounts = lonStepCounts) = true := by
    rw [decide_eq_true_eq]
    exact ⟨rfl, rfl⟩
  rw [hd]
  exact fromJsonAux_fast_eq hm

/-! ## The renaming preserves every observation -/

theorem renameMap_files_eq (m : Map) :
    (renameMap m).files = m.files.map fun f =>
      (⟨f.id, f.name,
        ⟨f.data.points.map (rhoPt (collectAll m).1),
         f.data.paths.map (rhoPa (collectAll m).1 (collectAll m).2)⟩⟩ : TimelineFile) := rfl

theorem renameMap_grid_points (m : Map) (c : ℕ) (q : TimelinePoint) :
    q ∈ ((renameMap m).grid c).points
      ↔ ∃ p, p ∈ (m.grid c).points ∧ rhoPt (collectAll m).1 p = q :=
  List.mem_map

theorem renameMap_grid_paths (m : Map) (c : ℕ) (q : TimelinePath) :
    q ∈ ((renameMap m).grid c).paths
      ↔ ∃ pa, pa ∈ (m.grid c).paths ∧ rhoPa (collectAll m).1 (collectAll m).2 pa = q :=
  List.mem_map

theorem renameMap_getStatistics (m : Map) :
    (renameMap m).getStatistics = m.getStatistics := by
  rw [getStatistics_eq, getStatistics_eq, renameMap_files_eq, List.map_map, List.map_map]
  congr 1
  · exact congrArg List.sum (List.map_congr_left fun f hf => by simp)
  · exact congrArg List.sum (List.map_congr_left fun f hf => by simp)

theorem renameMap_files_length (m : Map) :
    (renameMap m).getAllFiles.length = m.getAllFiles.length := by
  show ((renameMap m).files).length = m.files.length
  rw [renameMap_files_eq, List.length_map]

theorem renameMap_fileIds (m : Map) : (renameMap m).fileIds = m.fileIds := by
  unfold Map.fileIds
  rw [renameMap_files_eq, List.map_map]
  exact List.map_congr_left fun f hf => rfl

set_option maxRecDepth 40000 in
theorem renameMap_obsQueryPoints (m : Map) (b : MapBounds) :
    (renameMap m).obsQueryPoints b = m.obsQueryPoints b := by
  unfold Map.obsQueryPoints
  apply Finset.ext
  intro x
  simp only [Finset.mem_image]
  constructor
  · rintro ⟨q, hq, rfl⟩
    rw [mem_queryViewport_points] at hq
    obtain ⟨c, hc, hqc, hin⟩ := hq
    obtain ⟨p, hp, rfl⟩ := (renameMap_grid_points m c q).mp hqc
    refine ⟨p, ?_, rfl⟩
    rw [mem_queryViewport_points]
    exact ⟨c, hc, hp, hin⟩
  · rintro ⟨p, hp, rfl⟩
    rw [mem_queryViewport_points] at hp
    obtain ⟨c, hc, hpc, hin⟩ := hp
    refine ⟨rhoPt (collectAll m).1 p, ?_, rfl⟩
    rw [mem_queryViewport_points]
    refine ⟨c, hc, ?_, hin⟩
    exact (renameMap_grid_points m c _).mpr ⟨p, hpc, rfl⟩

set_option maxRecDepth 40000 in
set_option maxHeartbeats 1000000 in
theorem renameMap_obsQueryPaths (m : Map) (b : MapBounds) :
    (renameMap m).obsQueryPaths b = m.obsQueryPaths b := by
  unfold Map.obsQueryPaths
  apply Finset.ext
  intro x
  simp only [Finset.mem_image]
  constructor
  · rintro ⟨q, hq, rfl⟩
    rw [mem_queryViewport_paths] at hq
    obtain ⟨c, hc, hqc, hin⟩ := hq
    obtain ⟨pa, hpa, rfl⟩ := (renameMap_grid_paths m c q).mp hqc
    refine ⟨pa, ?_, rfl⟩
    rw [mem_queryViewport_paths]
    exact ⟨c, hc, hpa, hin⟩
  · rintro ⟨pa, hpa, rfl⟩
    rw [mem_queryViewport_paths] at hpa
    obtain ⟨c, hc, hpc, hin⟩ := hpa
    refine ⟨rhoPa (collectAll m).1 (collectAll m).2 pa, ?_, rfl⟩
    rw [mem_queryViewport_paths]
    refine ⟨c, hc, ?_, hin⟩
    exact (renameMap_grid_paths m c _).mpr ⟨pa, hpc, rfl⟩

set_option maxRecDepth 40000 in
set_option maxHeartbeats 2000000 in
theorem goodMap_renameMap {m : Map} (hm : GoodMap m) : GoodMap (renameMap m) := by
  refine ⟨?_, ?_, ?_, ?_, ?_, ?_, ?_⟩
  · intro f2 hf2
    rw [renameMap_files_eq, List.mem_map] at hf2
    obtain ⟨f, hf, rfl⟩ := hf2
    obtain ⟨hn1, hn2, hok1, hok2⟩ := hm.filesOk f hf
    refine ⟨?_, ?_, ?_, ?_⟩
    · refine List.Nodup.map_on ?_ hn1
      intro x hx y hy hxy
      exact rhoPt_inj (goodMap_filePts_P hm hf hx) (goodMap_filePts_P hm hf hy) hxy
    · refine List.Nodup.map_on ?_ hn2
      intro x hx y hy hxy
      exact rhoPa_inj (goodMap_filePas_Q hm hf hx) (goodMap_filePas_Q hm hf hy) hxy
    · intro q hq
      obtain ⟨p, hp, rfl⟩ := List.mem_map.mp hq
      exact hok1 p hp
    · intro q hq
      obtain ⟨pa, hpa, rfl⟩ := List.mem_map.mp hq
      exact hok2 pa hpa
  · show FilesDisj (renameMap m).files
    unfold FilesDisj
    rw [renameMap_files_eq, List.pairwise_map]
    refine List.Pairwise.imp_of_mem ?_ hm.disj
    intro f g hf hg hrel
    constructor
    · intro q hq hq2
      obtain ⟨p1, hp1, rfl⟩ := List.mem_map.mp hq
      obtain ⟨p2, hp2, heq⟩ := List.mem_map.mp hq2
      have := rhoPt_inj (goodMap_filePts_P hm hg hp2) (goodMap_filePts_P hm hf hp1) heq
      subst this
      exact hrel.1 p2 hp1 hp2
    · intro q hq hq2
      obtain ⟨pa1, hpa1, rfl⟩ := List.mem_map.mp hq
      obtain ⟨pa2, hpa2, heq⟩ := List.mem_map.mp hq2
      have := rhoPa_inj (goodMap_filePas_Q hm hg hpa2) (goodMap_filePas_Q hm hf hpa1) heq
      subst this
      exact hrel.2 pa2 hpa1 hpa2
  · intro c q hq
    obtain ⟨p, hp, rfl⟩ := (renameMap_grid_points m c q).mp hq
    obtain ⟨hcell, f, hf, hpf⟩ := hm.cellPt c p hp
    refine ⟨hcell, ?_⟩
    refine ⟨_, (renameMap_files_eq m ▸ List.mem_map_of_mem _ hf), ?_⟩
    exact List.mem_map_of_mem _ hpf
  · intro c q hq
    obtain ⟨pa, hpa, rfl⟩ := (renameMap_grid_paths m c q).mp hq
    obtain ⟨hcell, f, hf, hpaf⟩ := hm.cellPa c pa hpa
    refine ⟨hcell, ?_⟩
    refine ⟨_, (renameMap_files_eq m ▸ List.mem_map_of_mem _ hf), ?_⟩
    exact List.mem_map_of_mem _ hpaf
  · intro f2 hf2 q hq
    rw [renameMap_files_eq, List.mem_map] at hf2
    obtain ⟨f, hf, rfl⟩ := hf2
    obtain ⟨p, hp, rfl⟩ := List.mem_map.mp hq
    refine (renameMap_grid_points m _ _).mpr ⟨p, ?_, rfl⟩
    exact hm.inCellPt f hf p hp
  · intro f2 hf2 q hq
    rw [renameMap_files_eq, List.mem_map] at hf2
    obtain ⟨f, hf, rfl⟩ := hf2
    obtain ⟨pa, hpa, rfl⟩ := List.mem_map.mp hq
    have h := hm.inCellPa f hf pa hpa
    constructor
    · exact (renameMap_grid_paths m _ _).mpr ⟨pa, h.1, rfl⟩
    · exact (renameMap_grid_paths m _ _).mpr ⟨pa, h.2, rfl⟩
  · intro c
    constructor
    · refine List.Nodup.map_on ?_ (hm.cellNodup c).1
      intro x hx y hy hxy
      exact rhoPt_inj (goodMap_cellPts_P hm hx) (goodMap_cellPts_P hm hy) hxy
    · refine List.Nodup.map_on ?_ (hm.cellNodup c).2
      intro x hx y hy hxy
      exact rhoPa_inj (goodMap_cellPas_Q hm hx) (goodMap_cellPas_Q hm hy) hxy

/-! ## Iterated round trips -/

theorem roundTripN_good : ∀ (n : ℕ) (m : Map), GoodMap m →
    ∃ m2, roundTripN n m = some m2 ∧ GoodMap m2
      ∧ m2.getStatistics = m.getStatistics
      ∧ m2.getAllFiles.length = m.getAllFiles.length
      ∧ m2.fileIds = m.fileIds
      ∧ ∀ b, m2.obsQueryPoints b = m.obsQueryPoints b
          ∧ m2.obsQueryPaths b = m.obsQueryPaths b := by
  intro n
  induction n with
  | zero => intro m hm; exact ⟨m, rfl, hm, rfl, rfl, rfl, fun b => ⟨rfl, rfl⟩⟩
  | succ n ih =>
    intro m hm
    obtain ⟨m2, h1, h2, h3, h4, h5, h6⟩ := ih (renameMap m) (goodMap_renameMap hm)
    refine ⟨m2, ?_, h2, ?_, ?_, ?_, fun b => ⟨?_, ?_⟩⟩
    · show (roundTrip m).bind (roundTripN n) = some m2
      rw [roundTrip_eq hm]
      simpa using h1
    · rw [h3, renameMap_getStatistics]
    · rw [h4, renameMap_files_length]
    · rw [h5, renameMap_fileIds]
    · rw [(h6 b).1, renameMap_obsQueryPoints]
    · rw [(h6 b).2, renameMap_obsQueryPaths]

/-! ## The fast and the slow deserialization grids agree on membership -/

theorem mem_foldl_indexGroup_points (fs : List TimelineFile) :
    ∀ (g : ℕ → TimelineGroup) (c : ℕ) (q : TimelinePoint),
      q ∈ ((fs.foldl (fun g f => indexGroup g f.data) g) c).points
        ↔ q ∈ (g c).points ∨ ∃ f ∈ fs, q ∈ f.data.points ∧ c = cellOfPt q := by
  induction fs with
  | nil => simp
  | cons f fs ih =>
    intro g c q
    rw [List.foldl_cons, ih, indexGroup_points]
    simp only [List.mem_cons]
    constructor
    · rintro ((h | h) | ⟨f2, hf2, hq, hc⟩)
      · exact Or.inl h
      · exact Or.inr ⟨f, Or.inl rfl, h.1, h.2⟩
      · exact Or.inr ⟨f2, Or.inr hf2, hq, hc⟩
    · rintro (h | ⟨f2, rfl | hf2, hq, hc⟩)
      · exact Or.inl (Or.inl h)
      · exact Or.inl (Or.inr ⟨hq, hc⟩)
      · exact Or.inr ⟨f2, hf2, hq, hc⟩

theorem mem_foldl_indexGroup_paths (fs : List TimelineFile) :
    ∀ (g : ℕ → TimelineGroup) (c : ℕ) (q : TimelinePath),
      q ∈ ((fs.foldl (fun g f => indexGroup g f.data) g) c).paths
        ↔ q ∈ (g c).paths
          ∨ ∃ f ∈ fs, q ∈ f.data.paths ∧ (c = cellOfPt q.a ∨ c = cellOfPt q.b) := by
  induction fs with
  | nil => simp
  | cons f fs ih =>
    intro g c q
    rw [List.foldl_cons, ih, indexGroup_paths]
    simp only [List.mem_cons]
    constructor
    · rintro ((h | h) | ⟨f2, hf2, hq, hc⟩)
      · exact Or.inl h
      · exact Or.inr ⟨f, Or.inl rfl, h.1, h.2⟩
      · exact Or.inr ⟨f2, Or.inr hf2, hq, hc⟩
    · rintro (h | ⟨f2, rfl | hf2, hq, hc⟩)
      · exact Or.inl (Or.inl h)
      · exact Or.inl (Or.inr ⟨hq, hc⟩)
      · exact Or.inr ⟨f2, hf2, hq, hc⟩

set_option maxRecDepth 40000 in
set_option maxHeartbeats 2000000 in
theorem slowMap_grid_points {m : Map} (hm : GoodMap m) (c : ℕ) (q : TimelinePoint) :
    q ∈ ((slowMap m).grid c).points ↔ q ∈ ((renameMap m).grid c).points := by
  show q ∈ (((renameMap m).files.foldl (fun g f => indexGroup g f.data)
    (fun _ => TimelineGroup.createEmpty)) c).points ↔ _
  rw [mem_foldl_indexGroup_points, renameMap_grid_points]
  constructor
  · rintro (h | ⟨f2, hf2, hq, rfl⟩)
    · exact absurd h (by simp [TimelineGroup.createEmpty])
    · rw [renameMap_files_eq, List.mem_map] at hf2
      obtain ⟨f, hf, rfl⟩ := hf2
      obtain ⟨p, hp, rfl⟩ := List.mem_map.mp hq
      exact ⟨p, hm.inCellPt f hf p hp, rfl⟩
  · rintro ⟨p, hp, rfl⟩
    obtain ⟨hcell, f, hf, hpf⟩ := hm.cellPt c p hp
    refine Or.inr ⟨_, (renameMap_files_eq m ▸ List.mem_map_of_mem _ hf),
      List.mem_map_of_mem _ hpf, hcell⟩

set_option maxRecDepth 40000 in
set_option maxHeartbeats 2000000 in
theorem slowMap_grid_paths {m : Map} (hm : GoodMap m) (c : ℕ) (q : TimelinePath) :
    q ∈ ((slowMap m).grid c).paths ↔ q ∈ ((renameMap m).grid c).paths := by
  show q ∈ (((renameMap m).files.foldl (fun g f => indexGroup g f.data)
    (fun _ => TimelineGroup.createEmpty)) c).paths ↔ _
  rw [mem_foldl_indexGroup_paths, renameMap_grid_paths]
  constructor
  · rintro (h | ⟨f2, hf2, hq, hc⟩)
    · exact absurd h (by simp [TimelineGroup.createEmpty])
    · rw [renameMap_files_eq, List.mem_map] at hf2
      obtain ⟨f, hf, rfl⟩ := hf2
      obtain ⟨pa, hpa, rfl⟩ := List.mem_map.mp hq
      have h2 := hm.inCellPa f hf pa hpa
      rcases hc with hc | hc
      · rw [hc]
        exact ⟨pa, h2.1, rfl⟩
      · rw [hc]
        exact ⟨pa, h2.2, rfl⟩
  · rintro ⟨pa, hpa, rfl⟩
    obtain ⟨hcell, f, hf, hpaf⟩ := hm.cellPa c pa hpa
    exact Or.inr ⟨_, (renameMap_files_eq m ▸ List.mem_map_of_mem _ hf),
      List.mem_map_of_mem _ hpaf, hcell⟩

set_option maxRecDepth 40000 in
set_option maxHeartbeats 2000000 in
theorem slowMap_queryViewport {m : Map} (hm : GoodMap m) (b : MapBounds) :
    (renameMap m).queryViewport b = (slowMap m).queryViewport b := by
  have h1 : ((renameMap m).queryViewport b).1 = ((slowMap m).queryViewport b).1 := by
    apply Finset.ext
    intro q
    rw [mem_queryViewport_points, mem_queryViewport_points]
    constructor <;> rintro ⟨c, hc, hq, hin⟩
    · exact ⟨c, hc, (slowMap_grid_points hm c q).mpr hq, hin⟩
    · exact ⟨c, hc, (slowMap_grid_points hm c q).mp hq, hin⟩
  have h2 : ((renameMap m).queryViewport b).2 = ((slowMap m).queryViewport b).2 := by
    apply Finset.ext
    intro q
    rw [mem_queryViewport_paths, mem_queryViewport_paths]
    constructor <;> rintro ⟨c, hc, hq, hin⟩
    · exact ⟨c, hc, (slowMap_grid_paths hm c q).mpr hq, hin⟩
    · exact ⟨c, hc, (slowMap_grid_paths hm c q).mp hq, hin⟩
  rw [Prod.ext_iff]
  exact ⟨h1, h2⟩

/-! ## Claim C1 -/

set_option maxRecDepth 100000 in
/-- Claim C1, counterexample: the claim quantifies over maps built by ANY
sequence of addFile/removeFile operations.  The sequence addFile(A),
addFile(B), removeFile(A), where B shares its single point object with A,
yields a map whose statistics are (1, 0) but whose serialize/deserialize
round trip succeeds with statistics (0, 0): removing A erased the shared
point from its grid cell, so serialization finds no points and the
restored file B is empty. -/
theorem c1_counterexample :
    dirtyMap.getStatistics = (1, 0)
      ∧ (roundTrip dirtyMap).map Map.getStatistics = some (0, 0) := by
  rw [dirtyMap_eq]
  exact ⟨by decide, by decide⟩

/-- Claim C1 (amended): for every map reachable from empty by
addFile/removeFile operations in which every added file is well-formed and
shares no point or path reference with the files stored at the time of
addition, every number of serialize/deserialize round trips succeeds and
preserves getStatistics, the getAllFiles count, the file ids, and the
coordinate-level queryViewport results for every bounds.  For maps built
by arbitrary (reference-sharing) sequences the property fails
(c1_counterexample). -/
theorem c1_round_trip {m : Map} (h : Reachable m) : C1Conclusion m := by
  have hg := reachable_goodMap h
  intro n b
  obtain ⟨m2, h1, _, h3, h4, h5, h6⟩ := roundTripN_good n m hg
  exact ⟨m2, h1, h3, h4, h5, (h6 b).1, (h6 b).2⟩

/-- Witness for claim C1 at the concrete one-file map wMap. -/
theorem c1_round_trip_witness : Reachable wMap ∧ C1Conclusion wMap := by
  have hre : Reachable wMap := Reachable.add Reachable.empty (by decide) (by decide)
  exact ⟨hre, c1_round_trip hre⟩

/-! ## Claim C6 -/

set_option maxRecDepth 100000 in
/-- Claim C6, counterexample: on the serialized form of dirtyMapC (a map
produced by toSerializable after a reference-sharing add/add/remove
sequence left a path indexed whose endpoints are in no cell's point set),
the fast path restores the empty cell point list as serialized, while the
slow path reindexes the defensively serialized file points; a full-world
viewport query then returns 0 points after fast deserialization but 1
point after slow deserialization. -/
theorem c6_counterexample :
    ∃ mf ms : Map,
      Map.fromJsonAux true dirtyMapC.toJson = some mf
        ∧ Map.fromJsonAux false dirtyMapC.toJson = some ms
        ∧ (mf.queryViewport worldBounds).1.card = 0
        ∧ (ms.queryViewport worldBounds).1.card = 1 := by
  have htj : dirtyMapC.toJson
      = ⟨18, 36, [⟨0, 0, 0⟩, ⟨0, 0, 0⟩], [⟨0, 1⟩], [⟨342, [], [0]⟩],
         [⟨"b", "B", [0], [0]⟩]⟩ := by
    rw [dirtyMapC_eq]
    decide
  refine ⟨⟨Function.update (fun _ => TimelineGroup.createEmpty) 342
      ⟨[], [sharedPath]⟩, [fileC]⟩,
    ⟨fun c => if c = 342 then ⟨[pShared], [sharedPath]⟩ else TimelineGroup.createEmpty,
      [fileC]⟩, ?_, ?_, ?_, ?_⟩
  · rw [htj]
    rfl
  · rw [htj]
    have h1 : Map.fromJsonAux false
        (⟨18, 36, [⟨0, 0, 0⟩, ⟨0, 0, 0⟩], [⟨0, 1⟩], [⟨342, [], [0]⟩],
          [⟨"b", "B", [0], [0]⟩]⟩ : SerializedMap)
        = some ⟨[fileC].foldl (fun g f => indexGroup g f.data)
            (fun _ => TimelineGroup.createEmpty), [fileC]⟩ := rfl
    rw [h1]
    congr 1
    congr 1
    funext c
    show (indexPath (indexPoint (fun _ => TimelineGroup.createEmpty) pShared) sharedPath) c
      = (if c = 342 then (⟨[pShared], [sharedPath]⟩ : TimelineGroup)
         else TimelineGroup.createEmpty)
    unfold indexPath addPathToCell indexPoint
    rw [if_pos (show cellOfPt sharedPath.a = cellOfPt sharedPath.b from rfl)]
    have ha : cellOfPt sharedPath.a = 342 := cellOfPt_pShared
    simp only [Function.update_apply, cellOfPt_pShared, ha]
    by_cases hc : c = 342
    · subst hc
      simp only [eq_self_iff_true, if_true]
      decide
    · simp only [if_neg hc]
  · rw [queryViewport_cells _ _ _ qvCells_world_eq]
    decide
  · rw [queryViewport_cells _ _ _ qvCells_world_eq]
    decide

/-- Claim C6 (amended): for every map reachable from empty by clean
(well-formed, reference-disjoint) addFile/removeFile sequences, both
deserialization branches succeed on its serialized form and agree on
getStatistics and on every viewport query.  For serialized forms of
reference-sharing sequences the two branches can disagree
(c6_counterexample). -/
theorem c6_reindex_equivalence {m : Map} (h : Reachable m) : C6Conclusion m := by
  have hm := reachable_goodMap h
  refine ⟨renameMap m, slowMap m, fromJsonAux_fast_eq hm, fromJsonAux_slow_eq hm, rfl, ?_⟩
  intro b
  exact slowMap_queryViewport hm b

/-- Witness for claim C6 at the concrete one-file map wMap. -/
theorem c6_reindex_equivalence_witness : Reachable wMap ∧ C6Conclusion wMap := by
  have hre : Reachable wMap := Reachable.add Reachable.empty (by decide) (by decide)
  exact ⟨hre, c6_reindex_equivalence hre⟩

end Fog
